import Mathlib

/-!
Shallow embedding of the resilient stream-capture engine of `showrec.py`
(`record_stream`) and of the HLS capture path of `showrec_hls.py`
(`record_stream`, `record_with_streamlink`, `record_with_ffmpeg`,
`fix_file_format`), together with theorems settling the specification
claims about them.

Modelling conventions:
* Wall-clock readings (`time.time() - start_time`) are rationals supplied by
  the environment: every event of a run carries the elapsed time observed at
  the corresponding program point.
* `random.uniform(0.5, 1.5)` is an oracle `jit : Nat → ℚ`; the k-th sleep of
  a run consumes `jit k`.
* The network is a trace of connection attempts; each attempt either raises
  on connect or yields a finite list of chunk events followed by an ending
  (stream exhausted, I/O error, keyboard interrupt, or unexpected exception).
* The destination file is `disk : Option Nat` (absent, or present with its
  size in bytes); chunk writes are atomic.
* The Python `while True:` loop is driven by the finite attempt trace; a run
  that consumes the whole trace without returning is reported as
  `outOfTrace` (the modelled environment ended).
-/

/-- Python's built-in `min` on two rationals (used for the 60-second backoff
cap `min(current_retry_delay * 2, 60)`). -/
def pymin (a b : ℚ) : ℚ := if a ≤ b then a else b

namespace Showrec

/-- The arguments of `record_stream` that the control flow depends on:
`duration_seconds`, `max_retries`, `retry_delay`, and the size of the
destination file if it already exists when the function starts
(`os.path.getsize(output_file)` at lines 141-144). -/
structure Config where
  durationSeconds : ℚ
  maxRetries : Nat
  retryDelay : ℚ
  preSize : Option Nat
  deriving Repr, DecidableEq

/-- `initial_bytes` (line 142-144): the pre-existing file size, or 0. -/
def initBytes (cfg : Config) : Nat := cfg.preSize.getD 0

/-- One iteration of `response.iter_content(chunk_size=8192)` (line 199).
`data size tAfter` is a truthy (non-empty) chunk of `size` bytes, with
`tAfter` the elapsed time read at line 205-206 just after writing it.
`empty` is a falsy chunk, skipped entirely by `if chunk:` (line 200). -/
inductive ChunkEvent
  | data (size : Nat) (tAfter : ℚ)
  | empty
  deriving Repr, DecidableEq

/-- How a successfully connected stream stops yielding chunks.
`ended tEnd`: `iter_content` is exhausted (server closed the connection);
`tEnd` is the elapsed time re-read at line 231.
`ioError msg tErr`: a `requests` exception or `OSError` is raised mid-stream
(caught at line 295); `tErr` is the elapsed time read in the handler.
`interrupted tInt`: `KeyboardInterrupt` (caught at line 280).
`unexpected msg tErr`: any other exception (caught at line 344). -/
inductive Ending
  | ended (tEnd : ℚ)
  | ioError (msg : String) (tErr : ℚ)
  | interrupted (tInt : ℚ)
  | unexpected (msg : String) (tErr : ℚ)
  deriving Repr, DecidableEq

/-- The behaviour of one connection attempt (`requests.get` at line 186).
`connectFail msg tErr`: the request raises a `requests` exception or
`OSError` with message `msg`.
`connectInterrupt` / `connectUnexpected`: the request raises
`KeyboardInterrupt` / any other exception.
`connected evs ending`: the connection succeeds and the stream yields the
chunk events `evs` followed by `ending`. -/
inductive AttemptSpec
  | connectFail (msg : String) (tErr : ℚ)
  | connectInterrupt (tInt : ℚ)
  | connectUnexpected (msg : String) (tErr : ℚ)
  | connected (evs : List ChunkEvent) (ending : Ending)
  deriving Repr, DecidableEq

/-- One iteration of the retry loop: `tLoop` is the elapsed time read at the
top of the loop (line 174), `spec` what the attempted connection does. -/
structure Attempt where
  tLoop : ℚ
  spec : AttemptSpec
  deriving Repr, DecidableEq

/-- Log entry for one backoff sleep (lines 254-262 / 330-338): the value of
`current_retry_delay` the jittered sleep was computed from, the slept time
`current_retry_delay * jitter`, and the delay after the post-sleep update
`min(current_retry_delay * 2, 60)`. -/
structure SleepRec where
  delayUsed : ℚ
  slept : ℚ
  delayAfter : ℚ
  deriving Repr, DecidableEq

/-- The mutable state of one `record_stream` run: `total_bytes_written`,
`retry_count`, `current_retry_delay`, the `file_exists` flag, the on-disk
destination file (`none` = absent, `some n` = present with `n` bytes), plus
logs of the file-open modes (`true` = `'ab'`, `false` = `'wb'`), of the
backoff sleeps, the jitter-oracle index, and the number of connection
attempts performed (calls reaching `requests.get`). -/
structure RecState where
  totalBytes : Nat
  retryCount : Nat
  curDelay : ℚ
  flagExists : Bool
  disk : Option Nat
  opens : List Bool
  sleeps : List SleepRec
  jIdx : Nat
  attemptsMade : Nat
  deriving Repr, DecidableEq

/-- The result dict of `record_stream`: `success`, `bytes` standing for
`total_bytes_written` (the dict reports `size_mb = bytes / 2^20`),
`duration`, and `error`. The `file` key always holds `output_file` and is
omitted. -/
structure Outcome where
  success : Bool
  bytes : Nat
  duration : ℚ
  error : Option String
  deriving Repr, DecidableEq

/-- State at lines 155-162: counters initialised, delay = `retry_delay`,
`file_exists` and byte counter from the pre-existing file. -/
def initState (cfg : Config) : RecState where
  totalBytes := initBytes cfg
  retryCount := 0
  curDelay := cfg.retryDelay
  flagExists := cfg.preSize.isSome
  disk := cfg.preSize
  opens := []
  sleeps := []
  jIdx := 0
  attemptsMade := 0

/-- Result of the chunk loop (lines 199-227): either `record_stream`
returned from inside the loop (duration reached, line 208-219), or the loop
fell through to line 229 with the updated state. -/
inductive StreamRes
  | halted (o : Outcome) (s : RecState)
  | fellThrough (s : RecState)
  deriving Repr, DecidableEq

/-- The `for chunk in response.iter_content(...)` loop, lines 199-227:
write each truthy chunk, add its length to `total_bytes_written`, then
return Success if `total_elapsed >= duration_seconds`. -/
def streamChunks (dur : ℚ) : List ChunkEvent → RecState → StreamRes
  | [], s => .fellThrough s
  | .empty :: rest, s => streamChunks dur rest s
  | .data sz t :: rest, s =>
    let s' : RecState :=
      { s with totalBytes := s.totalBytes + sz, disk := some (s.disk.getD 0 + sz) }
    if dur ≤ t then
      .halted { success := true, bytes := s'.totalBytes, duration := t, error := none } s'
    else streamChunks dur rest s'

/-- Lines 254-262 / 330-338: draw a jitter factor, sleep
`current_retry_delay * jitter`, then double the delay and clamp at 60. -/
def doSleep (jit : Nat → ℚ) (s : RecState) : RecState :=
  let j := jit s.jIdx
  let slept := s.curDelay * j
  let newDelay := pymin (s.curDelay * 2) 60
  { s with
    sleeps := s.sleeps ++ [⟨s.curDelay, slept, newDelay⟩],
    curDelay := newDelay,
    jIdx := s.jIdx + 1 }

/-- One step of the retry loop either returns a result dict or continues
with a new state. -/
inductive Step
  | stop (o : Outcome) (s : RecState)
  | next (s : RecState)
  deriving Repr, DecidableEq

/-- The `except (requests.exceptions.RequestException, OSError)` handler,
lines 295-342: increment `retry_count`; if it exceeds `max_retries` return
Failure with `error = str(e)`; else if the duration completed return
Success; else sleep with backoff and continue, setting `file_exists` when
bytes beyond the initial size have been written (line 341). -/
def handleConnError (cfg : Config) (jit : Nat → ℚ) (msg : String) (tErr : ℚ)
    (s : RecState) : Step :=
  let s1 : RecState := { s with retryCount := s.retryCount + 1 }
  if s1.retryCount > cfg.maxRetries then
    .stop { success := false, bytes := s1.totalBytes, duration := tErr, error := some msg } s1
  else if cfg.durationSeconds ≤ tErr then
    .stop { success := true, bytes := s1.totalBytes, duration := tErr, error := none } s1
  else
    let s2 := doSleep jit s1
    .next { s2 with
      flagExists := if s2.totalBytes > initBytes cfg then true else s2.flagExists }

/-- Lines 229-278: the stream ended without an exception. Before the target
duration this is treated as a disconnection (retry with backoff, or Failure
with the explicit max-retries message once `retry_count > max_retries`); at
or after the target it is Success. -/
def handleStreamEnd (cfg : Config) (jit : Nat → ℚ) (tEnd : ℚ) (s : RecState) : Step :=
  if tEnd < cfg.durationSeconds then
    let s1 : RecState := { s with retryCount := s.retryCount + 1 }
    if s1.retryCount > cfg.maxRetries then
      .stop { success := false, bytes := s1.totalBytes, duration := tEnd,
              error := some ("Max retries (" ++ toString cfg.maxRetries ++ ") exceeded") } s1
    else
      let s2 := doSleep jit s1
      .next { s2 with flagExists := true }
  else
    .stop { success := true, bytes := s.totalBytes, duration := tEnd, error := none } s

/-- Lines 194-196: `mode = 'ab' if file_exists else 'wb'` followed by
`open(output_file, mode)`: append-open keeps the on-disk bytes (creating an
empty file when absent), truncate-open resets the file to 0 bytes. -/
def openFile (s1 : RecState) : RecState :=
  if s1.flagExists then
    { s1 with disk := some (s1.disk.getD 0), opens := s1.opens ++ [true] }
  else
    { s1 with disk := some 0, opens := s1.opens ++ [false] }

/-- Lines 199-278 plus the three exception handlers, for a successfully
connected attempt: run the chunk loop on the opened file, then dispatch on
how the stream stopped. -/
def streamPhase (cfg : Config) (jit : Nat → ℚ) (evs : List ChunkEvent)
    (ending : Ending) (s2 : RecState) : Step :=
  match streamChunks cfg.durationSeconds evs s2 with
  | .halted o s' => .stop o s'
  | .fellThrough s3 =>
    match ending with
    | .ended tEnd => handleStreamEnd cfg jit tEnd s3
    | .ioError msg tErr => handleConnError cfg jit msg tErr s3
    | .interrupted t =>
      .stop { success := false, bytes := s3.totalBytes, duration := t,
              error := some "User interrupted" } s3
    | .unexpected msg t =>
      .stop { success := false, bytes := s3.totalBytes, duration := t,
              error := some msg } s3

/-- One iteration of the `while True:` loop (lines 164-357). -/
def stepAttempt (cfg : Config) (jit : Nat → ℚ) (a : Attempt) (s : RecState) : Step :=
  -- lines 174-180: if the remaining duration is already ≤ 0, break out of
  -- the loop and reach the final Success return at line 369
  if cfg.durationSeconds ≤ a.tLoop then
    .stop { success := true, bytes := s.totalBytes, duration := a.tLoop, error := none } s
  else
    let s0 : RecState := { s with attemptsMade := s.attemptsMade + 1 }
    match a.spec with
    | .connectFail msg tErr => handleConnError cfg jit msg tErr s0
    | .connectInterrupt t =>
      .stop { success := false, bytes := s0.totalBytes, duration := t,
              error := some "User interrupted" } s0
    | .connectUnexpected msg t =>
      .stop { success := false, bytes := s0.totalBytes, duration := t, error := some msg } s0
    | .connected evs ending =>
      -- lines 191-192: reset retry counter and delay on successful connect
      streamPhase cfg jit evs ending
        (openFile { s0 with retryCount := 0, curDelay := cfg.retryDelay })

/-- Result of a run: `done` = `record_stream` returned a result dict;
`outOfTrace` = the modelled environment trace was exhausted first. -/
inductive RunRes
  | done (o : Outcome) (s : RecState)
  | outOfTrace (s : RecState)
  deriving Repr, DecidableEq

/-- The `while True:` retry loop of `record_stream`, driven by the attempt
trace. -/
def runAttempts (cfg : Config) (jit : Nat → ℚ) : List Attempt → RecState → RunRes
  | [], s => .outOfTrace s
  | a :: rest, s =>
    match stepAttempt cfg jit a s with
    | .stop o s' => .done o s'
    | .next s' => runAttempts cfg jit rest s'

/-- `record_stream(url, output_file, duration_seconds, max_retries,
retry_delay, ...)` run against an environment trace, from the freshly
initialised state. -/
def record_stream (cfg : Config) (jit : Nat → ℚ) (tr : List Attempt) : RunRes :=
  runAttempts cfg jit tr (initState cfg)

/-- Final state of a run. -/
def resState : RunRes → RecState
  | .done _ s => s
  | .outOfTrace s => s

/-- The returned result dict of a run, if the run returned. -/
def runOutcome : RunRes → Option Outcome
  | .done o _ => some o
  | .outOfTrace _ => none

/-- Total size of the truthy chunks of a chunk-event list. -/
def sumData : List ChunkEvent → Nat
  | [] => 0
  | .empty :: r => sumData r
  | .data sz _ :: r => sz + sumData r

/-- Scans a chunk-event list for the first truthy chunk whose post-write
elapsed time has reached `dur`; returns its elapsed time together with the
bytes written up to and including it. `none` if no chunk reaches the
deadline. -/
def takeToDeadline (dur : ℚ) : List ChunkEvent → Option (ℚ × Nat)
  | [] => none
  | .empty :: r => takeToDeadline dur r
  | .data sz t :: r =>
    if dur ≤ t then some (t, sz)
    else (takeToDeadline dur r).map (fun p => (p.1, sz + p.2))

/-- Holds when a run returned and its outcome and final state satisfy `Q`;
trivially true when the trace ran out. -/
def DoneProp (r : RunRes) (Q : Outcome → RecState → Prop) : Prop :=
  match r with
  | .done o s => Q o s
  | .outOfTrace _ => True

/-- The state carried by a chunk-loop result. -/
def streamState : StreamRes → RecState
  | .halted _ s => s
  | .fellThrough s => s

/-- The state carried by a loop-step result. -/
def stepState : Step → RecState
  | .stop _ s => s
  | .next s => s

/-- The state after one connected attempt whose stream ended (without
reaching the deadline and without exhausting the retry budget): bytes of the
segment appended, `retry_count` at 1, one more backoff sleep taken with the
freshly reset base delay, and `file_exists` forced on so the next attempt
appends. -/
def afterDisconnect (cfg : Config) (jit : Nat → ℚ) (s : RecState)
    (evs : List ChunkEvent) : RecState where
  totalBytes := s.totalBytes + sumData evs
  retryCount := 1
  curDelay := pymin (cfg.retryDelay * 2) 60
  flagExists := true
  disk := some ((if s.flagExists then s.disk.getD 0 else 0) + sumData evs)
  opens := s.opens ++ [s.flagExists]
  sleeps := s.sleeps ++
    [⟨cfg.retryDelay, cfg.retryDelay * jit s.jIdx, pymin (cfg.retryDelay * 2) 60⟩]
  jIdx := s.jIdx + 1
  attemptsMade := s.attemptsMade + 1

/-- The final state of a connected attempt that returned Success from inside
the chunk loop after writing `b` bytes. -/
def afterDeadline (cfg : Config) (s : RecState) (b : Nat) : RecState where
  totalBytes := s.totalBytes + b
  retryCount := 0
  curDelay := cfg.retryDelay
  flagExists := s.flagExists
  disk := some ((if s.flagExists then s.disk.getD 0 else 0) + b)
  opens := s.opens ++ [s.flagExists]
  sleeps := s.sleeps
  jIdx := s.jIdx
  attemptsMade := s.attemptsMade + 1

/-- An environment trace in which every connection attempt raises: each
entry gives the exception message, the loop-top elapsed time, and the
elapsed time read inside the handler. -/
def failTrace : List (String × ℚ × ℚ) → List Attempt
  | [] => []
  | (m, tl, te) :: r => ⟨tl, .connectFail m te⟩ :: failTrace r

/-- What `record_stream` guarantees of every logged backoff sleep: the slept
time is the pre-doubled `current_retry_delay` times a jitter factor in
[1/2, 3/2), hence lies in [delay/2, 3·delay/2); the delay update doubles the
pre-doubled value and clamps at 60, so the updated delay never exceeds 60. -/
def SleepOk (r : SleepRec) : Prop :=
  (∃ j : ℚ, 1/2 ≤ j ∧ j < 3/2 ∧ r.slept = r.delayUsed * j) ∧
  r.delayUsed / 2 ≤ r.slept ∧ r.slept < 3/2 * r.delayUsed ∧
  r.delayAfter = pymin (r.delayUsed * 2) 60 ∧ r.delayAfter ≤ 60

/-- Consistency between the byte counter, the `file_exists` flag and the
on-disk file, maintained at the top of every loop iteration: a cleared flag
means the capture started without a pre-existing file and has not written
anything yet, a set flag means the file exists on disk, and whenever the
file exists its size equals `total_bytes_written`. -/
def DiskInv (cfg : Config) (st : RecState) : Prop :=
  (st.flagExists = false → cfg.preSize = none ∧ st.totalBytes = 0) ∧
  (st.flagExists = true → st.disk.isSome = true) ∧
  (∀ m, st.disk = some m → m = st.totalBytes)

/-- What a capture that found a pre-existing `n`-byte destination file
maintains: the `file_exists` flag stays set, every file open so far was in
append mode (`'ab'`, never truncating), and the on-disk file holds at least
the original `n` bytes. -/
def C6Inv (n : Nat) (st : RecState) : Prop :=
  st.flagExists = true ∧ (∀ b ∈ st.opens, b = true) ∧
  ∃ m, st.disk = some m ∧ n ≤ m

end Showrec

/-- A constant jitter oracle used to instantiate theorems on concrete runs. -/
def jone : Nat → ℚ := fun _ => 1

/-- Python `str.replace(old, new)` on char lists, replacing every
non-overlapping occurrence left to right. The fuel argument (instantiated
with the input length) only makes the recursion structural; it never runs
out because each step consumes at least one character. An empty `old` is
treated as a no-op (the source only ever passes `".m4a"`). -/
def replFuel (old new : List Char) : Nat → List Char → List Char
  | 0, l => l
  | f + 1, l =>
    match l with
    | [] => []
    | c :: rest =>
      if (c :: rest).take old.length = old ∧ old ≠ [] then
        new ++ replFuel old new f (List.drop (old.length - 1) rest)
      else
        c :: replFuel old new f rest

/-- Python `s.replace(old, new)`. -/
def pyReplace (s old new : String) : String :=
  String.mk (replFuel old.toList new.toList s.toList.length s.toList)

namespace ShowrecHls

/-- A file on disk: an abstract content identifier plus its size in bytes
(`os.path.getsize`). -/
structure FileD where
  data : Nat
  size : Nat
  deriving Repr, DecidableEq

/-- The file system visible to the HLS recorder: an association list from
paths to files. -/
abbrev FS := List (String × FileD)

/-- Look a path up (`os.path.exists` / reading the file). -/
def fsGet : FS → String → Option FileD
  | [], _ => none
  | (p, f) :: r, q => if p = q then some f else fsGet r q

/-- `os.remove` (also used to build `fsSet`); removing an absent path is the
identity. -/
def fsRemove : FS → String → FS
  | [], _ => []
  | (p, f) :: r, q => if p = q then fsRemove r q else (p, f) :: fsRemove r q

/-- Write a file at a path, overwriting any existing one. -/
def fsSet (fs : FS) (p : String) (f : FileD) : FS :=
  (p, f) :: fsRemove fs p

/-- The temp-file cleanup idiom
`if os.path.exists(temp_file): os.remove(temp_file)`
(lines 198-199 / 212-213 / 219-220 of `showrec_hls.py`). -/
def cleanupTemp (fs : FS) (temp : String) : FS :=
  if (fsGet fs temp).isSome then fsRemove fs temp else fs

/-- The temporary path of `fix_file_format` (line 163):
`output_file.replace('.m4a', '_fixed.m4a')`. -/
def tmpName (output_file : String) : String :=
  pyReplace output_file ".m4a" "_fixed.m4a"

/-- Behaviour of the `subprocess.run(['ffmpeg', '-i', output_file, '-c',
'copy', '-y', temp_file], ...)` call inside `fix_file_format`:
`completed rc out` = the process finished with exit code `rc`, having
written `out` (if any) to the temp path; `timedOut out` = it hit the
5-minute timeout after writing `out` (if any); `raised msg` = the call
itself raised. -/
inductive RemuxRun
  | completed (rc : Int) (out : Option FileD)
  | timedOut (out : Option FileD)
  | raised (msg : String)
  deriving Repr, DecidableEq

/-- A remux environment is well formed when the tool only exits 0 after
actually producing its output file. -/
def WfRemux : RemuxRun → Prop
  | .completed rc out => rc = 0 → out.isSome
  | _ => True

/-- `fix_file_format(output_file, quiet)` from `showrec_hls.py`, lines
141-221, over the modelled file system. Returns the Python `bool` result
and the file system afterwards. If `os.rename(temp_file, output_file)`
raises because the temp path vanished, the generic `except Exception`
handler (line 215) runs: clean the temp path up and return `False`. -/
def fix_file_format (output_file : String) (ffmpegAvail : Bool)
    (run : RemuxRun) (fs : FS) : Bool × FS :=
  if (fsGet fs output_file).isNone then (false, fs)
  else if ffmpegAvail = false then (false, fs)
  else
    let temp := tmpName output_file
    match run with
    | .completed rc out =>
      let fs1 := match out with
        | some fd => fsSet fs temp fd
        | none => fs
      if rc = 0 then
        -- success path: os.remove(output_file); os.rename(temp, output)
        let fs2 := fsRemove fs1 output_file
        match fsGet fs2 temp with
        | some fd => (true, fsSet (fsRemove fs2 temp) output_file fd)
        | none => (false, cleanupTemp fs2 temp)
      else
        (false, cleanupTemp fs1 temp)
    | .timedOut out =>
      let fs1 := match out with
        | some fd => fsSet fs temp fd
        | none => fs
      (false, cleanupTemp fs1 temp)
    | .raised _ => (false, cleanupTemp fs temp)

/-- Behaviour of the external capture child process (`streamlink` or
`ffmpeg`): it exits with a code, or the monitoring loop is interrupted by
the user, or an exception is raised while driving it. -/
inductive ToolRun
  | exits (rc : Int)
  | interrupted
  | raised (msg : String)
  deriving Repr, DecidableEq

/-- `record_with_streamlink` (lines 223-316): `True` exactly when the child
process exits 0; an interrupt or exception yields `False`. -/
def record_with_streamlink (run : ToolRun) : Bool :=
  match run with
  | .exits rc => rc == 0
  | .interrupted => false
  | .raised _ => false

/-- `record_with_ffmpeg` (lines 318-421): same outcome mapping as the
streamlink backend. -/
def record_with_ffmpeg (run : ToolRun) : Bool :=
  match run with
  | .exits rc => rc == 0
  | .interrupted => false
  | .raised _ => false

/-- The result dict of the HLS `record_stream`: `sizeBytes` stands for
`file_size` (the dict reports `size_mb = sizeBytes / 2^20` when positive,
else 0). -/
structure HlsOutcome where
  success : Bool
  file : Option String
  sizeBytes : Nat
  duration : Nat
  error : Option String
  deriving Repr, DecidableEq

/-- `record_stream(url, output_file, duration_seconds, method, quiet)` from
`showrec_hls.py`, lines 423-530.

Environment parameters: `slAvail` / `ffAvail` are the results of
`check_streamlink()` / `check_ffmpeg()`; `tool` the behaviour of the chosen
capture child; `fsAfter` the file system after the child ran (the child owns
the write); `remux` the behaviour of the `ffmpeg` remux subprocess inside
`fix_file_format`; `fs0` the file system before any capture.

Returns `none` when the Python function would propagate an exception (the
`os.path.getsize` at line 519 raising because the destination vanished
during `fix_file_format`). The source wraps the unknown method name in
single quotes; the model drops the quotes. -/
def record_stream (output_file : String) (method : String)
    (slAvail ffAvail : Bool) (tool : ToolRun) (fsAfter : FS) (remux : RemuxRun)
    (duration_seconds : Nat) (fs0 : FS) : Option (HlsOutcome × FS) :=
  let failOut (msg : String) (fs : FS) : Option (HlsOutcome × FS) :=
    some ({ success := false, file := some output_file, sizeBytes := 0,
            duration := 0, error := some msg }, fs)
  let finish (success : Bool) : Option (HlsOutcome × FS) :=
    if success = true ∧ (fsGet fsAfter output_file).isSome then
      let fs' := (fix_file_format output_file ffAvail remux fsAfter).2
      match fsGet fs' output_file with
      | none => none
      | some fd =>
        some ({ success := success, file := if success then some output_file else none,
                sizeBytes := fd.size,
                duration := if success then duration_seconds else 0,
                error := if success then none else some "Recording failed" }, fs')
    else
      some ({ success := success, file := if success then some output_file else none,
              sizeBytes := 0,
              duration := if success then duration_seconds else 0,
              error := if success then none else some "Recording failed" }, fsAfter)
  let m1 : Option String :=
    if method = "auto" then
      if slAvail then some "streamlink"
      else if ffAvail then some "ffmpeg"
      else none
    else some method
  match m1 with
  | none => failOut "Neither streamlink nor ffmpeg found!" fs0
  | some m =>
    if m = "streamlink" then
      if slAvail = false then failOut "streamlink not found!" fs0
      else finish (record_with_streamlink tool)
    else if m = "ffmpeg" then
      if ffAvail = false then failOut "ffmpeg not found!" fs0
      else finish (record_with_ffmpeg tool)
    else failOut ("Unknown method " ++ method) fs0

end ShowrecHls

namespace Showrec

theorem takeToDeadline_ge (dur : ℚ) :
    ∀ evs t b, takeToDeadline dur evs = some (t, b) → dur ≤ t := by
  intro evs
  induction evs with
  | nil => intro t b h; simp [takeToDeadline] at h
  | cons e rest ih =>
    intro t b h
    cases e with
    | empty => exact ih t b h
    | data sz tt =>
      simp only [takeToDeadline] at h
      split at h
      · rename_i hle
        obtain ⟨rfl, rfl⟩ := Prod.mk.injEq .. ▸ (Option.some.injEq .. ▸ h)
        exact hle
      · rcases hrec : takeToDeadline dur rest with _ | ⟨t', b'⟩ <;> rw [hrec] at h
        · simp at h
        · simp only [Option.map_some'] at h
          obtain ⟨rfl, rfl⟩ := Prod.mk.injEq .. ▸ (Option.some.injEq .. ▸ h)
          exact ih t' b' hrec

theorem streamChunks_deadline (dur : ℚ) :
    ∀ evs s t b, takeToDeadline dur evs = some (t, b) →
      streamChunks dur evs s =
        .halted { success := true, bytes := s.totalBytes + b, duration := t, error := none }
          { s with totalBytes := s.totalBytes + b, disk := some (s.disk.getD 0 + b) } := by
  intro evs
  induction evs with
  | nil => intro s t b h; simp [takeToDeadline] at h
  | cons e rest ih =>
    intro s t b h
    cases e with
    | empty => simpa [streamChunks, takeToDeadline] using ih s t b h
    | data sz tt =>
      simp only [takeToDeadline] at h
      split at h
      · rename_i hle
        obtain ⟨rfl, rfl⟩ := Prod.mk.injEq .. ▸ (Option.some.injEq .. ▸ h)
        simp [streamChunks, hle]
      · rename_i hlt
        rcases hrec : takeToDeadline dur rest with _ | ⟨t', b'⟩ <;> rw [hrec] at h
        · simp at h
        · simp only [Option.map_some'] at h
          obtain ⟨rfl, rfl⟩ := Prod.mk.injEq .. ▸ (Option.some.injEq .. ▸ h)
          have := ih { s with totalBytes := s.totalBytes + sz,
                              disk := some (s.disk.getD 0 + sz) } t' b' hrec
          simp only [streamChunks, hlt, if_neg hlt]
          rw [this]
          cases s with
          | mk tb rc cd fl dk op sl ji am =>
            simp [Nat.add_assoc]

theorem streamChunks_no_deadline (dur : ℚ) :
    ∀ evs s m, s.disk = some m → takeToDeadline dur evs = none →
      streamChunks dur evs s =
        .fellThrough { s with totalBytes := s.totalBytes + sumData evs,
                              disk := some (m + sumData evs) } := by
  intro evs
  induction evs with
  | nil =>
    intro s m hm _
    cases s with
    | mk tb rc cd fl dk op sl ji am =>
      simp only [Option.some.injEq] at hm ⊢
      simp [streamChunks, sumData, hm.symm]
  | cons e rest ih =>
    intro s m hm h
    cases e with
    | empty => simpa [streamChunks, sumData] using ih s m hm h
    | data sz tt =>
      simp only [takeToDeadline] at h
      split at h
      · simp at h
      · rename_i hlt
        rcases hrec : takeToDeadline dur rest with _ | p <;> rw [hrec] at h
        · have := ih { s with totalBytes := s.totalBytes + sz,
                              disk := some (s.disk.getD 0 + sz) } (m + sz)
            (by simp [hm]) hrec
          simp only [streamChunks, if_neg hlt]
          rw [this]
          cases s with
          | mk tb rc cd fl dk op sl ji am => simp [sumData, Nat.add_assoc]
        · simp at h

theorem streamChunks_shape (dur : ℚ) :
    ∀ evs s m, s.disk = some m →
      ∃ k, streamState (streamChunks dur evs s) =
        { s with totalBytes := s.totalBytes + k, disk := some (m + k) } := by
  intro evs
  induction evs with
  | nil =>
    intro s m hm
    refine ⟨0, ?_⟩
    cases s with
    | mk tb rc cd fl dk op sl ji am =>
      simp only [Option.some.injEq] at hm
      simp [streamChunks, streamState, hm]
  | cons e rest ih =>
    intro s m hm
    cases e with
    | empty => simpa [streamChunks] using ih s m hm
    | data sz tt =>
      simp only [streamChunks]
      split
      · refine ⟨sz, ?_⟩
        simp [streamState, hm]
      · obtain ⟨k, hk⟩ := ih { s with totalBytes := s.totalBytes + sz,
                                      disk := some (s.disk.getD 0 + sz) } (m + sz)
          (by simp [hm])
        refine ⟨sz + k, ?_⟩
        rw [hk]
        cases s with
        | mk tb rc cd fl dk op sl ji am => simp [Nat.add_assoc]

theorem streamChunks_halted (dur : ℚ) :
    ∀ evs s o s', streamChunks dur evs s = .halted o s' →
      o.success = true ∧ o.bytes = s'.totalBytes ∧ o.error = none ∧ dur ≤ o.duration := by
  intro evs
  induction evs with
  | nil => intro s o s' h; simp [streamChunks] at h
  | cons e rest ih =>
    intro s o s' h
    cases e with
    | empty => exact ih s o s' (by simpa [streamChunks] using h)
    | data sz tt =>
      simp only [streamChunks] at h
      split at h
      · rename_i hle
        obtain ⟨rfl, rfl⟩ := StreamRes.halted.injEq .. ▸ h
        exact ⟨rfl, rfl, rfl, hle⟩
      · exact ih _ o s' h

end Showrec

namespace Showrec

theorem runAttempts_pres (cfg : Config) (jit : Nat → ℚ) (I J : RecState → Prop)
    (hstop : ∀ a s o s', I s → stepAttempt cfg jit a s = .stop o s' → J s')
    (hnext : ∀ a s s', I s → stepAttempt cfg jit a s = .next s' → I s') :
    ∀ tr s, I s →
      DoneProp (runAttempts cfg jit tr s) (fun _ s' => J s') ∧
      (∀ s', runAttempts cfg jit tr s = .outOfTrace s' → I s') := by
  intro tr
  induction tr with
  | nil =>
    intro s hI
    refine ⟨trivial, ?_⟩
    intro s' h
    simp only [runAttempts, RunRes.outOfTrace.injEq] at h
    exact h ▸ hI
  | cons a rest ih =>
    intro s hI
    cases hstep : stepAttempt cfg jit a s with
    | stop o s' =>
      refine ⟨?_, ?_⟩
      · simp only [runAttempts, hstep]
        exact hstop a s o s' hI hstep
      · intro s'' h
        simp only [runAttempts, hstep] at h
        exact RunRes.noConfusion h
    | next s' =>
      have hI' := hnext a s s' hI hstep
      have := ih s' hI'
      refine ⟨?_, ?_⟩
      · simpa only [runAttempts, hstep] using this.1
      · intro s'' h
        simp only [runAttempts, hstep] at h
        exact this.2 s'' h

theorem runAttempts_inv (cfg : Config) (jit : Nat → ℚ) (I : RecState → Prop)
    (hstop : ∀ a s o s', I s → stepAttempt cfg jit a s = .stop o s' → I s')
    (hnext : ∀ a s s', I s → stepAttempt cfg jit a s = .next s' → I s') :
    ∀ tr s, I s → I (resState (runAttempts cfg jit tr s)) := by
  intro tr s hI
  have h := runAttempts_pres cfg jit I I hstop hnext tr s hI
  cases hrun : runAttempts cfg jit tr s with
  | done o s' =>
    have h1 := h.1
    rw [hrun] at h1
    exact h1
  | outOfTrace s' => exact h.2 s' hrun

theorem step_deadline (cfg : Config) (jit : Nat → ℚ) (a : Attempt) (s : RecState)
    (evs : List ChunkEvent) (ending : Ending) (t : ℚ) (b : Nat)
    (hLoop : a.tLoop < cfg.durationSeconds)
    (hSpec : a.spec = .connected evs ending)
    (hDead : takeToDeadline cfg.durationSeconds evs = some (t, b)) :
    stepAttempt cfg jit a s =
      .stop { success := true, bytes := s.totalBytes + b, duration := t, error := none }
        (afterDeadline cfg s b) := by
  have hnot : ¬ cfg.durationSeconds ≤ a.tLoop := not_le.mpr hLoop
  cases s with
  | mk tb rc cd fl dk op sl ji am =>
    cases fl with
    | false =>
      simp only [stepAttempt, streamPhase, openFile, if_neg hnot, hSpec]
      rw [streamChunks_deadline cfg.durationSeconds evs _ t b hDead]
      simp [afterDeadline]
    | true =>
      simp only [stepAttempt, streamPhase, openFile, if_neg hnot, hSpec]
      rw [streamChunks_deadline cfg.durationSeconds evs _ t b hDead]
      simp [afterDeadline]

end Showrec

namespace Showrec

/-- C1 (amended): if, mid-stream, some appended chunk brings the elapsed
time to or past `targetDuration`, `record_stream` returns Success
immediately at the *first* such chunk: the returned `duration` is that
chunk's elapsed time (at or after the target, possibly later — termination
happens at a chunk boundary, not exactly at the target), the byte count
includes only the chunks up to and including it, and all remaining stream
data and the eventual stream ending are ignored (deadline priority). -/
theorem c1_deadline_priority (cfg : Config) (jit : Nat → ℚ) (a : Attempt)
    (rest : List Attempt) (s : RecState) (evs : List ChunkEvent) (ending : Ending)
    (t : ℚ) (b : Nat)
    (hLoop : a.tLoop < cfg.durationSeconds)
    (hSpec : a.spec = .connected evs ending)
    (hDead : takeToDeadline cfg.durationSeconds evs = some (t, b)) :
    runAttempts cfg jit (a :: rest) s =
      .done { success := true, bytes := s.totalBytes + b, duration := t, error := none }
        (afterDeadline cfg s b) ∧
    cfg.durationSeconds ≤ t := by
  constructor
  · simp only [runAttempts, step_deadline cfg jit a s evs ending t b hLoop hSpec hDead]
  · exact takeToDeadline_ge cfg.durationSeconds evs t b hDead

/-- C1 witness: a connection at elapsed 0 whose only chunk lands at elapsed
13 against a 10-second target stops right there with Success. -/
theorem c1_witness :
    runAttempts ⟨10, 3, 5, none⟩ jone
        [⟨0, .connected [.data 100 13] (.ended 15)⟩] (initState ⟨10, 3, 5, none⟩) =
      .done { success := true, bytes := 100, duration := 13, error := none }
        (afterDeadline ⟨10, 3, 5, none⟩ (initState ⟨10, 3, 5, none⟩) 100) ∧
    (10 : ℚ) ≤ 13 :=
  c1_deadline_priority ⟨10, 3, 5, none⟩ jone ⟨0, .connected [.data 100 13] (.ended 15)⟩
    [] (initState ⟨10, 3, 5, none⟩) [.data 100 13] (.ended 15) 13 100
    (by decide) rfl (by decide)

/-- C1 counterexample to the claim as stated: with `targetDuration = 10`
and chunks whose post-write elapsed times are 7 and 13 (followed by more
stream data), the capture returns Success with `elapsedSeconds = 13 ≠ 10`:
it stops at the first chunk boundary at or past the target, not exactly at
the target duration. (The 999-byte chunk after the deadline is ignored:
only 200 bytes are reported, so the deadline does take priority over
remaining stream data.) -/
theorem c1_counterexample :
    runOutcome (record_stream ⟨10, 3, 5, none⟩ jone
        [⟨0, .connected [.data 100 7, .data 100 13, .data 999 14] (.ended 15)⟩]) =
      some { success := true, bytes := 200, duration := 13, error := none } ∧
    (13 : ℚ) ≠ 10 := by decide

end Showrec

namespace Showrec

theorem step_disconnect (cfg : Config) (jit : Nat → ℚ) (a : Attempt) (s : RecState)
    (evs : List ChunkEvent) (tEnd : ℚ)
    (hLoop : a.tLoop < cfg.durationSeconds)
    (hSpec : a.spec = .connected evs (.ended tEnd))
    (hNoDead : takeToDeadline cfg.durationSeconds evs = none)
    (hEnd : tEnd < cfg.durationSeconds)
    (hRetry : 1 ≤ cfg.maxRetries) :
    stepAttempt cfg jit a s = .next (afterDisconnect cfg jit s evs) := by
  have hnot : ¬ cfg.durationSeconds ≤ a.tLoop := not_le.mpr hLoop
  have hcount : ¬ (0 + 1 > cfg.maxRetries) := by omega
  cases s with
  | mk tb rc cd fl dk op sl ji am =>
    cases fl with
    | false =>
      simp only [stepAttempt, streamPhase, openFile, if_neg hnot, hSpec]
      rw [streamChunks_no_deadline cfg.durationSeconds evs _ 0 rfl hNoDead]
      simp only [handleStreamEnd, if_pos hEnd, if_neg hcount]
      simp [doSleep, afterDisconnect]
      omega
    | true =>
      simp only [stepAttempt, streamPhase, openFile, if_neg hnot, hSpec]
      rw [streamChunks_no_deadline cfg.durationSeconds evs _ (dk.getD 0) rfl hNoDead]
      simp only [handleStreamEnd, if_pos hEnd, if_neg hcount]
      simp [doSleep, afterDisconnect]
      omega

theorem step_ended_after (cfg : Config) (jit : Nat → ℚ) (a : Attempt) (s : RecState)
    (evs : List ChunkEvent) (tEnd : ℚ)
    (hLoop : a.tLoop < cfg.durationSeconds)
    (hSpec : a.spec = .connected evs (.ended tEnd))
    (hNoDead : takeToDeadline cfg.durationSeconds evs = none)
    (hEnd : cfg.durationSeconds ≤ tEnd) :
    stepAttempt cfg jit a s =
      .stop { success := true, bytes := s.totalBytes + sumData evs, duration := tEnd,
              error := none }
        (afterDeadline cfg s (sumData evs)) := by
  have hnot : ¬ cfg.durationSeconds ≤ a.tLoop := not_le.mpr hLoop
  have hnd : ¬ tEnd < cfg.durationSeconds := not_lt.mpr hEnd
  cases s with
  | mk tb rc cd fl dk op sl ji am =>
    cases fl with
    | false =>
      simp only [stepAttempt, streamPhase, openFile, if_neg hnot, hSpec]
      rw [streamChunks_no_deadline cfg.durationSeconds evs _ 0 rfl hNoDead]
      simp only [handleStreamEnd, if_neg hnd]
      simp [afterDeadline]
    | true =>
      simp only [stepAttempt, streamPhase, openFile, if_neg hnot, hSpec]
      rw [streamChunks_no_deadline cfg.durationSeconds evs _ (dk.getD 0) rfl hNoDead]
      simp only [handleStreamEnd, if_neg hnd]
      simp [afterDeadline]

end Showrec

namespace Showrec

/-- C2: (a) if the read stream ends while the elapsed time is still
strictly below `targetDuration`, `record_stream` treats it as a
disconnection, not completion: `retry_count` becomes 1, exactly one backoff
sleep is taken under the usual jitter rule, and `file_exists` is forced on
so that the next attempt opens the same file in append mode, the byte
counter carrying over; (b) hence a capture that disconnects mid-run and
reconnects produces one continuous file whose final size is the sum of both
segments' bytes, with the first open truncating ('wb') and the second
appending ('ab'); (c) if the stream ends at or after `targetDuration`, the
run returns Success. -/
theorem c2_disconnect_is_retry_not_completion (cfg : Config) (jit : Nat → ℚ) :
    (∀ (a : Attempt) (rest : List Attempt) (s : RecState) (evs : List ChunkEvent) (tEnd : ℚ),
      a.tLoop < cfg.durationSeconds →
      a.spec = .connected evs (.ended tEnd) →
      takeToDeadline cfg.durationSeconds evs = none →
      tEnd < cfg.durationSeconds →
      1 ≤ cfg.maxRetries →
      runAttempts cfg jit (a :: rest) s =
        runAttempts cfg jit rest (afterDisconnect cfg jit s evs) ∧
      (afterDisconnect cfg jit s evs).retryCount = 1 ∧
      (afterDisconnect cfg jit s evs).flagExists = true ∧
      (afterDisconnect cfg jit s evs).totalBytes = s.totalBytes + sumData evs ∧
      (afterDisconnect cfg jit s evs).sleeps =
        s.sleeps ++
          [⟨cfg.retryDelay, cfg.retryDelay * jit s.jIdx, pymin (cfg.retryDelay * 2) 60⟩]) ∧
    (∀ (a1 a2 : Attempt) (rest : List Attempt) (evs1 evs2 : List ChunkEvent)
        (tEnd1 t : ℚ) (ending2 : Ending) (b : Nat),
      cfg.preSize = none →
      a1.tLoop < cfg.durationSeconds →
      a1.spec = .connected evs1 (.ended tEnd1) →
      takeToDeadline cfg.durationSeconds evs1 = none →
      tEnd1 < cfg.durationSeconds →
      1 ≤ cfg.maxRetries →
      a2.tLoop < cfg.durationSeconds →
      a2.spec = .connected evs2 ending2 →
      takeToDeadline cfg.durationSeconds evs2 = some (t, b) →
      ∃ sFin, record_stream cfg jit (a1 :: a2 :: rest) =
          .done { success := true, bytes := sumData evs1 + b, duration := t, error := none }
            sFin ∧
        sFin.disk = some (sumData evs1 + b) ∧
        sFin.opens = [false, true]) ∧
    (∀ (a : Attempt) (rest : List Attempt) (s : RecState) (evs : List ChunkEvent) (tEnd : ℚ),
      a.tLoop < cfg.durationSeconds →
      a.spec = .connected evs (.ended tEnd) →
      takeToDeadline cfg.durationSeconds evs = none →
      cfg.durationSeconds ≤ tEnd →
      runAttempts cfg jit (a :: rest) s =
        .done { success := true, bytes := s.totalBytes + sumData evs, duration := tEnd,
                error := none }
          (afterDeadline cfg s (sumData evs))) := by
  refine ⟨?_, ?_, ?_⟩
  · intro a rest s evs tEnd hLoop hSpec hNoDead hEnd hRetry
    refine ⟨?_, rfl, rfl, rfl, rfl⟩
    simp only [runAttempts, step_disconnect cfg jit a s evs tEnd hLoop hSpec hNoDead hEnd hRetry]
  · intro a1 a2 rest evs1 evs2 tEnd1 t ending2 b hPre hL1 hS1 hND1 hE1 hRetry hL2 hS2 hD2
    refine ⟨afterDeadline cfg (afterDisconnect cfg jit (initState cfg) evs1) b, ?_, ?_, ?_⟩
    · unfold record_stream
      simp only [runAttempts,
        step_disconnect cfg jit a1 (initState cfg) evs1 tEnd1 hL1 hS1 hND1 hE1 hRetry,
        step_deadline cfg jit a2 (afterDisconnect cfg jit (initState cfg) evs1) evs2 ending2
          t b hL2 hS2 hD2]
      simp [afterDisconnect, initState, initBytes, hPre]
    · simp [afterDeadline, afterDisconnect, initState, initBytes, hPre, Nat.add_assoc]
    · simp [afterDeadline, afterDisconnect, initState, hPre]
  · intro a rest s evs tEnd hLoop hSpec hNoDead hEnd
    simp only [runAttempts, step_ended_after cfg jit a s evs tEnd hLoop hSpec hNoDead hEnd]

end Showrec

namespace Showrec

/-- C2 witness: a 10-second capture whose stream drops at elapsed 5 after
100 bytes re-enters the retry path with `retry_count = 1` and append mode
forced on; with a second connection delivering 70 + 30 more bytes it
finishes with Success and 200 bytes; and a stream that ends exactly at the
target returns Success directly. -/
theorem c2_witness :
    (runAttempts ⟨10, 3, 5, none⟩ jone [⟨0, .connected [.data 100 3] (.ended 5)⟩]
        (initState ⟨10, 3, 5, none⟩) =
      runAttempts ⟨10, 3, 5, none⟩ jone []
        (afterDisconnect ⟨10, 3, 5, none⟩ jone (initState ⟨10, 3, 5, none⟩) [.data 100 3]) ∧
      (afterDisconnect ⟨10, 3, 5, none⟩ jone (initState ⟨10, 3, 5, none⟩)
        [.data 100 3]).retryCount = 1 ∧
      (afterDisconnect ⟨10, 3, 5, none⟩ jone (initState ⟨10, 3, 5, none⟩)
        [.data 100 3]).flagExists = true) ∧
    runOutcome (record_stream ⟨10, 3, 5, none⟩ jone
        [⟨0, .connected [.data 100 3] (.ended 5)⟩,
         ⟨6, .connected [.data 70 8, .data 30 11] (.ended 12)⟩]) =
      some { success := true, bytes := 200, duration := 11, error := none } ∧
    runAttempts ⟨10, 3, 5, none⟩ jone [⟨0, .connected [.data 50 3] (.ended 10)⟩]
        (initState ⟨10, 3, 5, none⟩) =
      .done { success := true, bytes := 50, duration := 10, error := none }
        (afterDeadline ⟨10, 3, 5, none⟩ (initState ⟨10, 3, 5, none⟩) 50) := by
  refine ⟨?_, ?_, ?_⟩
  · have h := (c2_disconnect_is_retry_not_completion ⟨10, 3, 5, none⟩ jone).1
      ⟨0, .connected [.data 100 3] (.ended 5)⟩ [] (initState ⟨10, 3, 5, none⟩)
      [.data 100 3] 5 (by decide) rfl (by decide) (by decide) (by decide)
    exact ⟨h.1, h.2.1, h.2.2.1⟩
  · obtain ⟨sFin, hrun, -, -⟩ :=
      (c2_disconnect_is_retry_not_completion ⟨10, 3, 5, none⟩ jone).2.1
        ⟨0, .connected [.data 100 3] (.ended 5)⟩
        ⟨6, .connected [.data 70 8, .data 30 11] (.ended 12)⟩
        [] [.data 100 3] [.data 70 8, .data 30 11] 5 11 (.ended 12) 100
        rfl (by decide) rfl (by decide) (by decide) (by decide) (by decide) rfl (by decide)
    rw [hrun]
    rfl
  · exact (c2_disconnect_is_retry_not_completion ⟨10, 3, 5, none⟩ jone).2.2
      ⟨0, .connected [.data 50 3] (.ended 10)⟩ [] (initState ⟨10, 3, 5, none⟩)
      [.data 50 3] 10 (by decide) rfl (by decide) (by decide)

end Showrec


namespace Showrec

theorem c3_aux (cfg : Config) (jit : Nat → ℚ) :
    ∀ (L : List (String × ℚ × ℚ)) (m : String) (tl te : ℚ) (s : RecState),
      (∀ x ∈ L, x.2.1 < cfg.durationSeconds ∧ x.2.2 < cfg.durationSeconds) →
      tl < cfg.durationSeconds →
      s.retryCount + (L.length + 1) = cfg.maxRetries + 1 →
      ∃ s', runAttempts cfg jit (failTrace (L ++ [(m, tl, te)])) s =
          .done { success := false, bytes := s.totalBytes, duration := te,
                  error := some m } s' ∧
        s'.attemptsMade = s.attemptsMade + (L.length + 1) ∧
        s'.retryCount = cfg.maxRetries + 1 ∧
        s'.totalBytes = s.totalBytes := by
  intro L
  induction L with
  | nil =>
    intro m tl te s hall htl hlen
    cases s with
    | mk tb rc cd fl dk op sl ji am =>
      simp only [List.length_nil] at hlen
      have hgt : rc + 1 > cfg.maxRetries := by omega
      refine ⟨⟨tb, rc + 1, cd, fl, dk, op, sl, ji, am + 1⟩, ?_,
        by show am + 1 = am + (0 + 1); omega,
        by show rc + 1 = cfg.maxRetries + 1; omega, rfl⟩
      simp only [List.nil_append, failTrace, runAttempts, stepAttempt,
        if_neg (not_le.mpr htl), handleConnError]
      simp [hgt]
  | cons x L' ih =>
    intro m tl te s hall htl hlen
    obtain ⟨m0, tl0, te0⟩ := x
    have hx := hall (m0, tl0, te0) (by simp)
    cases s with
    | mk tb rc cd fl dk op sl ji am =>
      simp only [List.length_cons] at hlen
      have hle : ¬ (rc + 1 > cfg.maxRetries) := by omega
      have hte : ¬ (cfg.durationSeconds ≤ te0) := not_le.mpr hx.2
      obtain ⟨s', hrun, hattempts, hretry, hbytes⟩ := ih m tl te
        ⟨tb, rc + 1, pymin (cd * 2) 60, (if tb > initBytes cfg then true else fl), dk, op,
          sl ++ [⟨cd, cd * jit ji, pymin (cd * 2) 60⟩], ji + 1, am + 1⟩
        (fun y hy => hall y (List.mem_cons_of_mem _ hy)) htl
        (by show rc + 1 + (L'.length + 1) = cfg.maxRetries + 1; omega)
      have hstep : stepAttempt cfg jit ⟨tl0, .connectFail m0 te0⟩
          ⟨tb, rc, cd, fl, dk, op, sl, ji, am⟩ =
          .next ⟨tb, rc + 1, pymin (cd * 2) 60, (if tb > initBytes cfg then true else fl),
            dk, op, sl ++ [⟨cd, cd * jit ji, pymin (cd * 2) 60⟩], ji + 1, am + 1⟩ := by
        simp only [stepAttempt, if_neg (not_le.mpr hx.1), handleConnError, doSleep]
        simp [hle, hte]
      refine ⟨s', ?_, ?_, hretry, by simpa using hbytes⟩
      · simp only [List.cons_append, failTrace, runAttempts, hstep]
        exact hrun
      · simp only at hattempts
        simp only [List.length_cons]
        omega

end Showrec

namespace Showrec

/-- C3 (amended): when every connection attempt of a capture fails (with
the elapsed time still below the target), `record_stream` with
`max_retries = N` performs exactly `N + 1` connection attempts (the initial
attempt plus `N` retries) and then returns a Failure outcome whose `error`
is the *message of the last connection exception* (`str(e)`); the explicit
"Max retries (N) exceeded" message is produced only on the early-disconnect
path, not on the connection-failure path. -/
theorem c3_retry_exhaustion (cfg : Config) (jit : Nat → ℚ)
    (L : List (String × ℚ × ℚ)) (m : String) (tl te : ℚ) (s : RecState)
    (hall : ∀ x ∈ L, x.2.1 < cfg.durationSeconds ∧ x.2.2 < cfg.durationSeconds)
    (htl : tl < cfg.durationSeconds)
    (hlen : L.length = cfg.maxRetries)
    (hrc : s.retryCount = 0) :
    runOutcome (runAttempts cfg jit (failTrace (L ++ [(m, tl, te)])) s) =
      some { success := false, bytes := s.totalBytes, duration := te, error := some m } ∧
    (resState (runAttempts cfg jit (failTrace (L ++ [(m, tl, te)])) s)).attemptsMade =
      s.attemptsMade + (cfg.maxRetries + 1) ∧
    (resState (runAttempts cfg jit (failTrace (L ++ [(m, tl, te)])) s)).retryCount =
      cfg.maxRetries + 1 := by
  obtain ⟨s', hrun, hattempts, hretry, -⟩ :=
    c3_aux cfg jit L m tl te s hall htl (by omega)
  rw [hrun]
  exact ⟨rfl, by rw [hlen] at hattempts; exact hattempts, hretry⟩

/-- C3 witness: with `max_retries = 3` and four connection attempts all
failing ("boom1" … "boom4"), the run makes exactly 4 attempts and fails
with the last exception's message. -/
theorem c3_witness :
    runOutcome (runAttempts ⟨100, 3, 5, none⟩ jone
        (failTrace ([("boom1", 0, 1), ("boom2", 2, 3), ("boom3", 4, 5)] ++ [("boom4", 6, 7)]))
        (initState ⟨100, 3, 5, none⟩)) =
      some { success := false, bytes := 0, duration := 7, error := some "boom4" } ∧
    (resState (runAttempts ⟨100, 3, 5, none⟩ jone
        (failTrace ([("boom1", 0, 1), ("boom2", 2, 3), ("boom3", 4, 5)] ++ [("boom4", 6, 7)]))
        (initState ⟨100, 3, 5, none⟩))).attemptsMade = 0 + (3 + 1) ∧
    (resState (runAttempts ⟨100, 3, 5, none⟩ jone
        (failTrace ([("boom1", 0, 1), ("boom2", 2, 3), ("boom3", 4, 5)] ++ [("boom4", 6, 7)]))
        (initState ⟨100, 3, 5, none⟩))).retryCount = 3 + 1 :=
  c3_retry_exhaustion ⟨100, 3, 5, none⟩ jone
    [("boom1", 0, 1), ("boom2", 2, 3), ("boom3", 4, 5)] "boom4" 6 7
    (initState ⟨100, 3, 5, none⟩) (by decide) (by decide) rfl rfl

/-- C3 counterexample to the claim as stated: with `max_retries = 3` and
four failing connection attempts, the failure outcome's `error` is the last
exception's message ("boom4"), not a message indicating that the retries
were exceeded (the code's own retries-exceeded message, used on the
disconnect path, would read "Max retries (3) exceeded"). The attempt count
(4 = initial + 3 retries) does hold. -/
theorem c3_counterexample :
    runOutcome (record_stream ⟨100, 3, 5, none⟩ jone
        (failTrace [("boom1", 0, 1), ("boom2", 2, 3), ("boom3", 4, 5), ("boom4", 6, 7)])) =
      some { success := false, bytes := 0, duration := 7, error := some "boom4" } ∧
    (resState (record_stream ⟨100, 3, 5, none⟩ jone
        (failTrace [("boom1", 0, 1), ("boom2", 2, 3), ("boom3", 4, 5),
          ("boom4", 6, 7)]))).attemptsMade = 4 ∧
    some "boom4" ≠ some ("Max retries (" ++ toString (3 : Nat) ++ ") exceeded") := by decide

end Showrec

namespace Showrec

theorem streamChunks_pres_aux (dur : ℚ) :
    ∀ evs s, (streamState (streamChunks dur evs s)).sleeps = s.sleeps ∧
      (streamState (streamChunks dur evs s)).curDelay = s.curDelay ∧
      (streamState (streamChunks dur evs s)).retryCount = s.retryCount ∧
      (streamState (streamChunks dur evs s)).flagExists = s.flagExists ∧
      (streamState (streamChunks dur evs s)).opens = s.opens ∧
      (streamState (streamChunks dur evs s)).jIdx = s.jIdx ∧
      (streamState (streamChunks dur evs s)).attemptsMade = s.attemptsMade ∧
      s.totalBytes ≤ (streamState (streamChunks dur evs s)).totalBytes := by
  intro evs
  induction evs with
  | nil => intro s; simp [streamChunks, streamState]
  | cons e rest ih =>
    intro s
    cases e with
    | empty => simpa [streamChunks] using ih s
    | data sz tt =>
      simp only [streamChunks]
      split
      · simp [streamState]
      · have h := ih { s with totalBytes := s.totalBytes + sz,
                              disk := some (s.disk.getD 0 + sz) }
        simp only at h
        refine ⟨h.1, h.2.1, h.2.2.1, h.2.2.2.1, h.2.2.2.2.1, h.2.2.2.2.2.1,
          h.2.2.2.2.2.2.1, ?_⟩
        exact le_trans (Nat.le_add_right _ _) h.2.2.2.2.2.2.2

theorem doSleep_backoff (jit : Nat → ℚ) (s : RecState)
    (hj : ∀ i, 1/2 ≤ jit i ∧ jit i < 3/2)
    (hcur : 0 < s.curDelay)
    (hsl : ∀ r ∈ s.sleeps, SleepOk r) :
    0 < (doSleep jit s).curDelay ∧ ∀ r ∈ (doSleep jit s).sleeps, SleepOk r := by
  constructor
  · show 0 < pymin (s.curDelay * 2) 60
    unfold pymin
    split
    · positivity
    · norm_num
  · intro r hr
    simp only [doSleep, List.mem_append, List.mem_singleton] at hr
    rcases hr with hr | rfl
    · exact hsl r hr
    · refine ⟨⟨jit s.jIdx, (hj s.jIdx).1, (hj s.jIdx).2, rfl⟩, ?_, ?_, rfl, ?_⟩
      · calc s.curDelay / 2 = s.curDelay * (1/2) := by ring
        _ ≤ s.curDelay * jit s.jIdx :=
          mul_le_mul_of_nonneg_left (hj s.jIdx).1 hcur.le
      · calc s.curDelay * jit s.jIdx < s.curDelay * (3/2) :=
          (mul_lt_mul_left hcur).mpr (hj s.jIdx).2
        _ = 3/2 * s.curDelay := by ring
      · show pymin (s.curDelay * 2) 60 ≤ 60
        unfold pymin
        split
        · assumption
        · norm_num

theorem handleConnError_backoff (cfg : Config) (jit : Nat → ℚ) (msg : String)
    (tErr : ℚ) (s : RecState)
    (hj : ∀ i, 1/2 ≤ jit i ∧ jit i < 3/2)
    (hcur : 0 < s.curDelay)
    (hsl : ∀ r ∈ s.sleeps, SleepOk r) :
    0 < (stepState (handleConnError cfg jit msg tErr s)).curDelay ∧
    ∀ r ∈ (stepState (handleConnError cfg jit msg tErr s)).sleeps, SleepOk r := by
  unfold handleConnError
  dsimp only
  split
  · exact ⟨hcur, hsl⟩
  · split
    · exact ⟨hcur, hsl⟩
    · have h := doSleep_backoff jit { s with retryCount := s.retryCount + 1 } hj hcur hsl
      exact ⟨h.1, h.2⟩

theorem handleStreamEnd_backoff (cfg : Config) (jit : Nat → ℚ) (tEnd : ℚ) (s : RecState)
    (hj : ∀ i, 1/2 ≤ jit i ∧ jit i < 3/2)
    (hcur : 0 < s.curDelay)
    (hsl : ∀ r ∈ s.sleeps, SleepOk r) :
    0 < (stepState (handleStreamEnd cfg jit tEnd s)).curDelay ∧
    ∀ r ∈ (stepState (handleStreamEnd cfg jit tEnd s)).sleeps, SleepOk r := by
  unfold handleStreamEnd
  dsimp only
  split
  · split
    · exact ⟨hcur, hsl⟩
    · have h := doSleep_backoff jit { s with retryCount := s.retryCount + 1 } hj hcur hsl
      exact ⟨h.1, h.2⟩
  · exact ⟨hcur, hsl⟩

theorem openFile_fields (s1 : RecState) :
    (openFile s1).sleeps = s1.sleeps ∧ (openFile s1).curDelay = s1.curDelay ∧
    (openFile s1).retryCount = s1.retryCount ∧ (openFile s1).totalBytes = s1.totalBytes ∧
    (openFile s1).flagExists = s1.flagExists ∧ (openFile s1).jIdx = s1.jIdx ∧
    (openFile s1).attemptsMade = s1.attemptsMade ∧ (openFile s1).disk.isSome = true := by
  unfold openFile
  split <;> simp

theorem streamPhase_backoff (cfg : Config) (jit : Nat → ℚ) (evs : List ChunkEvent)
    (ending : Ending) (s2 : RecState)
    (hj : ∀ i, 1/2 ≤ jit i ∧ jit i < 3/2)
    (hc2 : 0 < s2.curDelay)
    (hs2 : ∀ r ∈ s2.sleeps, SleepOk r) :
    0 < (stepState (streamPhase cfg jit evs ending s2)).curDelay ∧
    ∀ r ∈ (stepState (streamPhase cfg jit evs ending s2)).sleeps, SleepOk r := by
  unfold streamPhase
  have hfields := streamChunks_pres_aux cfg.durationSeconds evs s2
  cases hsc : streamChunks cfg.durationSeconds evs s2 with
  | halted o s' =>
    rw [hsc] at hfields
    simp only [streamState] at hfields
    simp only [stepState]
    exact ⟨hfields.2.1 ▸ hc2, hfields.1 ▸ hs2⟩
  | fellThrough s3 =>
    rw [hsc] at hfields
    simp only [streamState] at hfields
    have hc3 : 0 < s3.curDelay := hfields.2.1 ▸ hc2
    have hs3 : ∀ r ∈ s3.sleeps, SleepOk r := hfields.1 ▸ hs2
    cases ending with
    | ended tEnd => exact handleStreamEnd_backoff cfg jit tEnd s3 hj hc3 hs3
    | ioError msg tErr => exact handleConnError_backoff cfg jit msg tErr s3 hj hc3 hs3
    | interrupted t => exact ⟨hc3, hs3⟩
    | unexpected msg t => exact ⟨hc3, hs3⟩

theorem stepAttempt_backoff (cfg : Config) (jit : Nat → ℚ) (a : Attempt) (s : RecState)
    (hj : ∀ i, 1/2 ≤ jit i ∧ jit i < 3/2)
    (hbase : 0 < cfg.retryDelay)
    (hcur : 0 < s.curDelay)
    (hsl : ∀ r ∈ s.sleeps, SleepOk r) :
    0 < (stepState (stepAttempt cfg jit a s)).curDelay ∧
    ∀ r ∈ (stepState (stepAttempt cfg jit a s)).sleeps, SleepOk r := by
  unfold stepAttempt
  dsimp only
  split
  · exact ⟨hcur, hsl⟩
  · cases a.spec with
    | connectFail msg tErr =>
      exact handleConnError_backoff cfg jit msg tErr _ hj hcur hsl
    | connectInterrupt t => exact ⟨hcur, hsl⟩
    | connectUnexpected msg t => exact ⟨hcur, hsl⟩
    | connected evs ending =>
      have hof := openFile_fields
        { s with attemptsMade := s.attemptsMade + 1, retryCount := 0,
                 curDelay := cfg.retryDelay }
      refine streamPhase_backoff cfg jit evs ending _ hj ?_ ?_
      · rw [hof.2.1]; exact hbase
      · rw [hof.1]; exact hsl

end Showrec

namespace Showrec

/-- C4: provided the jitter oracle draws from [1/2, 3/2) and the configured
base delay is positive, every backoff sleep of a run satisfies `SleepOk`:
the slept time equals the pre-doubled `current_retry_delay` times the drawn
jitter factor, hence lies in [delay/2, 3·delay/2); only after the sleep is
computed is the delay doubled and clamped at 60, so the post-update delay
never exceeds 60, for any number of consecutive failures. -/
theorem c4_backoff_bounds (cfg : Config) (jit : Nat → ℚ) (tr : List Attempt) (s : RecState)
    (hj : ∀ i, 1/2 ≤ jit i ∧ jit i < 3/2)
    (hbase : 0 < cfg.retryDelay)
    (hcur : 0 < s.curDelay)
    (hsl : ∀ r ∈ s.sleeps, SleepOk r) :
    (∀ r ∈ (resState (runAttempts cfg jit tr s)).sleeps, SleepOk r) ∧
    0 < (resState (runAttempts cfg jit tr s)).curDelay := by
  have h := runAttempts_inv cfg jit
    (fun st => 0 < st.curDelay ∧ ∀ r ∈ st.sleeps, SleepOk r)
    (fun a st o st' hI hstep => by
      have := stepAttempt_backoff cfg jit a st hj hbase hI.1 hI.2
      rw [hstep] at this
      exact this)
    (fun a st st' hI hstep => by
      have := stepAttempt_backoff cfg jit a st hj hbase hI.1 hI.2
      rw [hstep] at this
      exact this)
    tr s ⟨hcur, hsl⟩
  exact ⟨h.2, h.1⟩

/-- C4 witness: ten consecutive connection failures with base delay 5 under
a unit jitter oracle; every logged sleep obeys the jitter bounds and the
clamped doubling. -/
theorem c4_witness :
    (∀ r ∈ (resState (runAttempts ⟨1000, 20, 5, none⟩ jone
        (failTrace [("e1", 0, 1), ("e2", 2, 3), ("e3", 4, 5), ("e4", 6, 7), ("e5", 8, 9),
          ("e6", 10, 11), ("e7", 12, 13), ("e8", 14, 15), ("e9", 16, 17), ("e10", 18, 19)])
        (initState ⟨1000, 20, 5, none⟩))).sleeps, SleepOk r) ∧
    0 < (resState (runAttempts ⟨1000, 20, 5, none⟩ jone
        (failTrace [("e1", 0, 1), ("e2", 2, 3), ("e3", 4, 5), ("e4", 6, 7), ("e5", 8, 9),
          ("e6", 10, 11), ("e7", 12, 13), ("e8", 14, 15), ("e9", 16, 17), ("e10", 18, 19)])
        (initState ⟨1000, 20, 5, none⟩))).curDelay :=
  c4_backoff_bounds ⟨1000, 20, 5, none⟩ jone
    (failTrace [("e1", 0, 1), ("e2", 2, 3), ("e3", 4, 5), ("e4", 6, 7), ("e5", 8, 9),
      ("e6", 10, 11), ("e7", 12, 13), ("e8", 14, 15), ("e9", 16, 17), ("e10", 18, 19)])
    (initState ⟨1000, 20, 5, none⟩)
    (fun i => by constructor <;> norm_num [jone])
    (by norm_num)
    (by norm_num [initState])
    (by simp [initState])

end Showrec

namespace Showrec

theorem handleConnError_bytes_eq (cfg : Config) (jit : Nat → ℚ) (msg : String)
    (tErr : ℚ) (s : RecState) :
    (stepState (handleConnError cfg jit msg tErr s)).totalBytes = s.totalBytes := by
  unfold handleConnError
  dsimp only
  split
  · rfl
  · split
    · rfl
    · simp [stepState, doSleep]

theorem handleStreamEnd_bytes_eq (cfg : Config) (jit : Nat → ℚ) (tEnd : ℚ)
    (s : RecState) :
    (stepState (handleStreamEnd cfg jit tEnd s)).totalBytes = s.totalBytes := by
  unfold handleStreamEnd
  dsimp only
  split
  · split
    · rfl
    · simp [stepState, doSleep]
  · rfl

theorem handleConnError_stop_obytes (cfg : Config) (jit : Nat → ℚ) (msg : String)
    (tErr : ℚ) (s : RecState) :
    ∀ o s', handleConnError cfg jit msg tErr s = .stop o s' → o.bytes = s'.totalBytes := by
  unfold handleConnError
  dsimp only
  intro o s'
  split
  · intro h; cases h; rfl
  · split
    · intro h; cases h; rfl
    · intro h; exact Step.noConfusion h

theorem handleStreamEnd_stop_obytes (cfg : Config) (jit : Nat → ℚ) (tEnd : ℚ)
    (s : RecState) :
    ∀ o s', handleStreamEnd cfg jit tEnd s = .stop o s' → o.bytes = s'.totalBytes := by
  unfold handleStreamEnd
  dsimp only
  intro o s'
  split
  · split
    · intro h; cases h; rfl
    · intro h; exact Step.noConfusion h
  · intro h; cases h; rfl

theorem streamPhase_stop_obytes (cfg : Config) (jit : Nat → ℚ) (evs : List ChunkEvent)
    (ending : Ending) (s2 : RecState) :
    ∀ o s', streamPhase cfg jit evs ending s2 = .stop o s' → o.bytes = s'.totalBytes := by
  unfold streamPhase
  intro o s'
  cases hsc : streamChunks cfg.durationSeconds evs s2 with
  | halted o1 s1 =>
    intro h; cases h
    exact (streamChunks_halted cfg.durationSeconds evs s2 _ _ hsc).2.1
  | fellThrough s3 =>
    cases ending with
    | ended tEnd => exact handleStreamEnd_stop_obytes cfg jit tEnd s3 o s'
    | ioError msg tErr => exact handleConnError_stop_obytes cfg jit msg tErr s3 o s'
    | interrupted t => intro h; cases h; rfl
    | unexpected msg t => intro h; cases h; rfl

theorem streamPhase_bytes_mono (cfg : Config) (jit : Nat → ℚ) (evs : List ChunkEvent)
    (ending : Ending) (s2 : RecState) :
    s2.totalBytes ≤ (stepState (streamPhase cfg jit evs ending s2)).totalBytes := by
  unfold streamPhase
  have hmono := (streamChunks_pres_aux cfg.durationSeconds evs s2).2.2.2.2.2.2.2
  cases hsc : streamChunks cfg.durationSeconds evs s2 with
  | halted o1 s1 =>
    rw [hsc] at hmono
    simp only [streamState] at hmono
    simpa [stepState] using hmono
  | fellThrough s3 =>
    rw [hsc] at hmono
    simp only [streamState] at hmono
    cases ending with
    | ended tEnd => rw [handleStreamEnd_bytes_eq]; exact hmono
    | ioError msg tErr => rw [handleConnError_bytes_eq]; exact hmono
    | interrupted t => simpa [stepState] using hmono
    | unexpected msg t => simpa [stepState] using hmono

theorem stepAttempt_bytes_mono (cfg : Config) (jit : Nat → ℚ) (a : Attempt)
    (s : RecState) :
    s.totalBytes ≤ (stepState (stepAttempt cfg jit a s)).totalBytes := by
  unfold stepAttempt
  dsimp only
  split
  · exact le_refl _
  · cases a.spec with
    | connectFail msg tErr =>
      rw [handleConnError_bytes_eq]
    | connectInterrupt t => exact le_refl _
    | connectUnexpected msg t => exact le_refl _
    | connected evs ending =>
      refine le_trans (le_of_eq ?_) (streamPhase_bytes_mono cfg jit evs ending
        (openFile
          { s with attemptsMade := s.attemptsMade + 1, retryCount := 0,
                   curDelay := cfg.retryDelay }))
      rw [(openFile_fields
        { s with attemptsMade := s.attemptsMade + 1, retryCount := 0,
                 curDelay := cfg.retryDelay }).2.2.2.1]

theorem stepAttempt_stop_obytes (cfg : Config) (jit : Nat → ℚ) (a : Attempt)
    (s : RecState) :
    ∀ o s', stepAttempt cfg jit a s = .stop o s' → o.bytes = s'.totalBytes := by
  unfold stepAttempt
  dsimp only
  intro o s'
  split
  · intro h; cases h; rfl
  · cases a.spec with
    | connectFail msg tErr => exact handleConnError_stop_obytes cfg jit msg tErr _ o s'
    | connectInterrupt t => intro h; cases h; rfl
    | connectUnexpected msg t => intro h; cases h; rfl
    | connected evs ending => exact streamPhase_stop_obytes cfg jit evs ending _ o s'

theorem runAttempts_done_bytes (cfg : Config) (jit : Nat → ℚ) :
    ∀ tr s o s', runAttempts cfg jit tr s = .done o s' → o.bytes = s'.totalBytes := by
  intro tr
  induction tr with
  | nil => intro s o s' h; simp [runAttempts] at h
  | cons a rest ih =>
    intro s o s' h
    cases hstep : stepAttempt cfg jit a s with
    | stop o1 s1 =>
      simp only [runAttempts, hstep] at h
      cases h
      exact stepAttempt_stop_obytes cfg jit a s o s' hstep
    | next s1 =>
      simp only [runAttempts, hstep] at h
      exact ih s1 o s' h

theorem runAttempts_mono (cfg : Config) (jit : Nat → ℚ) :
    ∀ tr s, s.totalBytes ≤ (resState (runAttempts cfg jit tr s)).totalBytes := by
  intro tr
  induction tr with
  | nil => intro s; simp [runAttempts, resState]
  | cons a rest ih =>
    intro s
    have hm := stepAttempt_bytes_mono cfg jit a s
    cases hstep : stepAttempt cfg jit a s with
    | stop o1 s1 =>
      rw [hstep] at hm
      simp only [stepState] at hm
      simp only [runAttempts, hstep, resState]
      exact hm
    | next s1 =>
      rw [hstep] at hm
      simp only [stepState] at hm
      simp only [runAttempts, hstep]
      exact le_trans hm (ih s1)

end Showrec

namespace Showrec

theorem handleConnError_disk (cfg : Config) (jit : Nat → ℚ) (msg : String) (tErr : ℚ)
    (st : RecState)
    (h1 : st.flagExists = false → cfg.preSize = none)
    (h3 : ∀ m, st.disk = some m → m = st.totalBytes)
    (h4 : st.totalBytes > initBytes cfg → st.disk.isSome = true)
    (h5 : st.flagExists = true → st.disk.isSome = true) :
    (∀ o s', handleConnError cfg jit msg tErr st = .stop o s' →
      ∀ m, s'.disk = some m → m = s'.totalBytes) ∧
    (∀ s', handleConnError cfg jit msg tErr st = .next s' → DiskInv cfg s') := by
  unfold handleConnError
  dsimp only
  constructor
  · intro o s'
    split
    · intro h; cases h; exact h3
    · split
      · intro h; cases h; exact h3
      · intro h; exact Step.noConfusion h
  · intro s'
    split
    · intro h; exact Step.noConfusion h
    · split
      · intro h; exact Step.noConfusion h
      · intro h
        cases h
        refine ⟨?_, ?_, ?_⟩
        · simp only [doSleep]
          split
          · intro hf; simp at hf
          · rename_i hnb
            intro hf
            have hpre := h1 hf
            refine ⟨hpre, ?_⟩
            have hi : initBytes cfg = 0 := by rw [initBytes, hpre]; rfl
            omega
        · simp only [doSleep]
          split
          · rename_i hb
            intro _
            exact h4 hb
          · intro hf
            exact h5 hf
        · simp only [doSleep]
          exact h3

theorem handleStreamEnd_disk (cfg : Config) (jit : Nat → ℚ) (tEnd : ℚ) (st : RecState)
    (h3 : ∀ m, st.disk = some m → m = st.totalBytes)
    (hds : st.disk.isSome = true) :
    (∀ o s', handleStreamEnd cfg jit tEnd st = .stop o s' →
      ∀ m, s'.disk = some m → m = s'.totalBytes) ∧
    (∀ s', handleStreamEnd cfg jit tEnd st = .next s' → DiskInv cfg s') := by
  unfold handleStreamEnd
  dsimp only
  constructor
  · intro o s'
    split
    · split
      · intro h; cases h; exact h3
      · intro h; exact Step.noConfusion h
    · intro h; cases h; exact h3
  · intro s'
    split
    · split
      · intro h; exact Step.noConfusion h
      · intro h
        cases h
        refine ⟨?_, ?_, ?_⟩
        · intro hf; simp at hf
        · intro _
          simpa [doSleep] using hds
        · simp only [doSleep]
          exact h3
    · intro h; exact Step.noConfusion h

theorem streamPhase_disk (cfg : Config) (jit : Nat → ℚ) (evs : List ChunkEvent)
    (ending : Ending) (s2 : RecState)
    (hd : s2.disk = some s2.totalBytes)
    (h1 : s2.flagExists = false → cfg.preSize = none) :
    (∀ o s', streamPhase cfg jit evs ending s2 = .stop o s' →
      ∀ m, s'.disk = some m → m = s'.totalBytes) ∧
    (∀ s', streamPhase cfg jit evs ending s2 = .next s' → DiskInv cfg s') := by
  unfold streamPhase
  obtain ⟨k, hk⟩ := streamChunks_shape cfg.durationSeconds evs s2 s2.totalBytes hd
  cases hsc : streamChunks cfg.durationSeconds evs s2 with
  | halted o1 s1 =>
    rw [hsc] at hk
    simp only [streamState] at hk
    constructor
    · intro o s' h; cases h
      rw [hk]
      simp
    · intro s' h; exact Step.noConfusion h
  | fellThrough s3 =>
    rw [hsc] at hk
    simp only [streamState] at hk
    have h3' : ∀ m, s3.disk = some m → m = s3.totalBytes := by rw [hk]; simp
    have h1' : s3.flagExists = false → cfg.preSize = none := by
      rw [hk]; intro hf; exact h1 hf
    have hds : s3.disk.isSome = true := by rw [hk]; simp
    cases ending with
    | ended tEnd => exact handleStreamEnd_disk cfg jit tEnd s3 h3' hds
    | ioError msg tErr =>
      exact handleConnError_disk cfg jit msg tErr s3 h1' h3' (fun _ => hds) (fun _ => hds)
    | interrupted t =>
      constructor
      · intro o s' h; cases h; exact h3'
      · intro s' h; exact Step.noConfusion h
    | unexpected msg t =>
      constructor
      · intro o s' h; cases h; exact h3'
      · intro s' h; exact Step.noConfusion h

end Showrec

namespace Showrec

theorem stepAttempt_disk (cfg : Config) (jit : Nat → ℚ) (a : Attempt) (s : RecState)
    (hI : DiskInv cfg s) :
    (∀ o s', stepAttempt cfg jit a s = .stop o s' →
      ∀ m, s'.disk = some m → m = s'.totalBytes) ∧
    (∀ s', stepAttempt cfg jit a s = .next s' → DiskInv cfg s') := by
  obtain ⟨h2, hB, h3⟩ := hI
  have h4s : s.totalBytes > initBytes cfg → s.disk.isSome = true := by
    intro hb
    cases hfl : s.flagExists with
    | false =>
      have hz := (h2 hfl).2
      have hi : initBytes cfg = 0 := by rw [initBytes, (h2 hfl).1]; rfl
      exact absurd hb (by omega)
    | true => exact hB hfl
  unfold stepAttempt
  dsimp only
  split
  · constructor
    · intro o s' h; cases h; exact h3
    · intro s' h; exact Step.noConfusion h
  · cases a.spec with
    | connectFail msg tErr =>
      exact handleConnError_disk cfg jit msg tErr _
        (fun hf => (h2 hf).1) h3 h4s hB
    | connectInterrupt t =>
      constructor
      · intro o s' h; cases h; exact h3
      · intro s' h; exact Step.noConfusion h
    | connectUnexpected msg t =>
      constructor
      · intro o s' h; cases h; exact h3
      · intro s' h; exact Step.noConfusion h
    | connected evs ending =>
      refine streamPhase_disk cfg jit evs ending
        (openFile
          { s with attemptsMade := s.attemptsMade + 1, retryCount := 0,
                   curDelay := cfg.retryDelay }) ?_ ?_
      · unfold openFile
        split
        · rename_i hfl
          have hb := hB hfl
          cases hdk : s.disk with
          | none => rw [hdk] at hb; simp at hb
          | some m =>
            have hm := h3 m hdk
            simp [hdk, hm]
        · rename_i hfl
          have hz := (h2 (by simpa using hfl)).2
          simp [hz]
      · intro hf
        rw [(openFile_fields
          { s with attemptsMade := s.attemptsMade + 1, retryCount := 0,
                   curDelay := cfg.retryDelay }).2.2.2.2.1] at hf
        exact (h2 hf).1

theorem initState_disk (cfg : Config) : DiskInv cfg (initState cfg) := by
  refine ⟨?_, ?_, ?_⟩ <;> cases hp : cfg.preSize <;> simp [initState, initBytes, hp]

theorem runAttempts_disk (cfg : Config) (jit : Nat → ℚ) :
    ∀ tr s, DiskInv cfg s →
      DoneProp (runAttempts cfg jit tr s)
        (fun _ s' => ∀ m, s'.disk = some m → m = s'.totalBytes) := by
  intro tr s hI
  exact (runAttempts_pres cfg jit (DiskInv cfg)
    (fun s' => ∀ m, s'.disk = some m → m = s'.totalBytes)
    (fun a st o st' hIs hstep => (stepAttempt_disk cfg jit a st hIs).1 o st' hstep)
    (fun a st st' hIs hstep => (stepAttempt_disk cfg jit a st hIs).2 st' hstep)
    tr s hI).1

/-- C5: the cumulative byte counter `total_bytes_written` is monotonically
non-decreasing across every chunk write (first conjunct, over the chunk
loop from any state) and across every reconnect (second conjunct, over the
whole retry loop from any state); and whenever `record_stream` returns, the
reported byte count equals the final counter and the destination file on
disk — when it exists — has exactly that size. -/
theorem c5_monotone_bytes :
    (∀ (dur : ℚ) (evs : List ChunkEvent) (s : RecState),
      s.totalBytes ≤ (streamState (streamChunks dur evs s)).totalBytes) ∧
    (∀ (cfg : Config) (jit : Nat → ℚ) (tr : List Attempt) (s : RecState),
      s.totalBytes ≤ (resState (runAttempts cfg jit tr s)).totalBytes) ∧
    (∀ (cfg : Config) (jit : Nat → ℚ) (tr : List Attempt),
      DoneProp (record_stream cfg jit tr)
        (fun o s' => o.bytes = s'.totalBytes ∧
          (s'.disk = none ∨ s'.disk = some o.bytes))) := by
  refine ⟨?_, ?_, ?_⟩
  · intro dur evs s
    exact (streamChunks_pres_aux dur evs s).2.2.2.2.2.2.2
  · intro cfg jit tr s
    exact runAttempts_mono cfg jit tr s
  · intro cfg jit tr
    have hdisk := runAttempts_disk cfg jit tr (initState cfg) (initState_disk cfg)
    unfold record_stream
    cases hrun : runAttempts cfg jit tr (initState cfg) with
    | done o s' =>
      rw [hrun] at hdisk
      simp only [DoneProp] at hdisk ⊢
      have hb := runAttempts_done_bytes cfg jit tr (initState cfg) o s' hrun
      refine ⟨hb, ?_⟩
      cases hdk : s'.disk with
      | none => exact Or.inl rfl
      | some m => exact Or.inr (by rw [hdisk m hdk, hb])
    | outOfTrace s' => simp [DoneProp]

end Showrec

namespace Showrec

theorem handleConnError_fields (cfg : Config) (jit : Nat → ℚ) (msg : String)
    (tErr : ℚ) (st : RecState) :
    (stepState (handleConnError cfg jit msg tErr st)).opens = st.opens ∧
    (stepState (handleConnError cfg jit msg tErr st)).disk = st.disk ∧
    (st.flagExists = true →
      (stepState (handleConnError cfg jit msg tErr st)).flagExists = true) := by
  unfold handleConnError
  dsimp only
  split
  · exact ⟨rfl, rfl, fun h => h⟩
  · split
    · exact ⟨rfl, rfl, fun h => h⟩
    · refine ⟨by simp [stepState, doSleep], by simp [stepState, doSleep], ?_⟩
      intro h
      simp only [stepState, doSleep]
      split
      · rfl
      · exact h

theorem handleStreamEnd_fields (cfg : Config) (jit : Nat → ℚ) (tEnd : ℚ)
    (st : RecState) :
    (stepState (handleStreamEnd cfg jit tEnd st)).opens = st.opens ∧
    (stepState (handleStreamEnd cfg jit tEnd st)).disk = st.disk ∧
    (st.flagExists = true →
      (stepState (handleStreamEnd cfg jit tEnd st)).flagExists = true) := by
  unfold handleStreamEnd
  dsimp only
  split
  · split
    · exact ⟨rfl, rfl, fun h => h⟩
    · exact ⟨by simp [stepState, doSleep], by simp [stepState, doSleep],
        by intro _; simp [stepState, doSleep]⟩
  · exact ⟨rfl, rfl, fun h => h⟩

theorem streamPhase_c6 (cfg : Config) (jit : Nat → ℚ) (evs : List ChunkEvent)
    (ending : Ending) (s2 : RecState) (n : Nat) (hI : C6Inv n s2) :
    C6Inv n (stepState (streamPhase cfg jit evs ending s2)) := by
  obtain ⟨hflag, hopens, m, hm, hnm⟩ := hI
  unfold streamPhase
  obtain ⟨k, hk⟩ := streamChunks_shape cfg.durationSeconds evs s2 m hm
  cases hsc : streamChunks cfg.durationSeconds evs s2 with
  | halted o1 s1 =>
    rw [hsc] at hk
    simp only [streamState] at hk
    simp only [stepState]
    rw [hk]
    exact ⟨hflag, hopens, m + k, rfl, by omega⟩
  | fellThrough s3 =>
    rw [hsc] at hk
    simp only [streamState] at hk
    have hflag3 : s3.flagExists = true := by rw [hk]; exact hflag
    have hopens3 : ∀ b ∈ s3.opens, b = true := by rw [hk]; exact hopens
    have hdisk3 : s3.disk = some (m + k) := by rw [hk]
    cases ending with
    | ended tEnd =>
      have hf := handleStreamEnd_fields cfg jit tEnd s3
      exact ⟨hf.2.2 hflag3, by rw [hf.1]; exact hopens3,
        m + k, by rw [hf.2.1]; exact hdisk3, by omega⟩
    | ioError msg tErr =>
      have hf := handleConnError_fields cfg jit msg tErr s3
      exact ⟨hf.2.2 hflag3, by rw [hf.1]; exact hopens3,
        m + k, by rw [hf.2.1]; exact hdisk3, by omega⟩
    | interrupted t =>
      exact ⟨hflag3, hopens3, m + k, hdisk3, by omega⟩
    | unexpected msg t =>
      exact ⟨hflag3, hopens3, m + k, hdisk3, by omega⟩

theorem stepAttempt_c6 (cfg : Config) (jit : Nat → ℚ) (a : Attempt) (s : RecState)
    (n : Nat) (hI : C6Inv n s) :
    C6Inv n (stepState (stepAttempt cfg jit a s)) := by
  obtain ⟨hflag, hopens, m, hm, hnm⟩ := hI
  unfold stepAttempt
  dsimp only
  split
  · exact ⟨hflag, hopens, m, hm, hnm⟩
  · cases a.spec with
    | connectFail msg tErr =>
      have hf := handleConnError_fields cfg jit msg tErr
        { s with attemptsMade := s.attemptsMade + 1 }
      exact ⟨hf.2.2 hflag, by rw [hf.1]; exact hopens,
        m, by rw [hf.2.1]; exact hm, hnm⟩
    | connectInterrupt t => exact ⟨hflag, hopens, m, hm, hnm⟩
    | connectUnexpected msg t => exact ⟨hflag, hopens, m, hm, hnm⟩
    | connected evs ending =>
      apply streamPhase_c6
      simp only [openFile, hflag, if_true]
      refine ⟨?_, ?_, m, ?_, hnm⟩
      · simp [hflag]
      · intro b hb
        simp only [List.mem_append, List.mem_singleton] at hb
        rcases hb with hb | rfl
        · exact hopens b hb
        · rfl
      · simp [hm]

end Showrec

namespace Showrec

/-- C6: if the destination file already exists with `n` bytes when
`record_stream` starts, the byte counter starts at `n`, every file open the
run ever performs is in append mode (`'ab'`, never truncating), and the
on-disk file always ends with at least the pre-existing `n` bytes. -/
theorem c6_resume_appends (cfg : Config) (jit : Nat → ℚ) (tr : List Attempt) (n : Nat)
    (hpre : cfg.preSize = some n) :
    (initState cfg).totalBytes = n ∧
    (∀ b ∈ (resState (record_stream cfg jit tr)).opens, b = true) ∧
    (∃ m, (resState (record_stream cfg jit tr)).disk = some m ∧ n ≤ m) := by
  have h0 : C6Inv n (initState cfg) := by
    refine ⟨by simp [initState, hpre], by simp [initState], n, by simp [initState, hpre],
      le_refl n⟩
  have h := runAttempts_inv cfg jit (C6Inv n)
    (fun a st o st' hIs hstep => by
      have hc := stepAttempt_c6 cfg jit a st n hIs
      rw [hstep] at hc
      exact hc)
    (fun a st st' hIs hstep => by
      have hc := stepAttempt_c6 cfg jit a st n hIs
      rw [hstep] at hc
      exact hc)
    tr (initState cfg) h0
  exact ⟨by simp [initState, initBytes, hpre], h.2.1, h.2.2⟩

/-- C6 witness: a capture resuming a 1000-byte file appends 50 bytes in
append mode; the counter starts at 1000 and the file ends at ≥ 1000
bytes. -/
theorem c6_witness :
    (initState ⟨10, 3, 5, some 1000⟩).totalBytes = 1000 ∧
    (∀ b ∈ (resState (record_stream ⟨10, 3, 5, some 1000⟩ jone
        [⟨0, .connected [.data 50 11] (.ended 12)⟩])).opens, b = true) ∧
    (∃ m, (resState (record_stream ⟨10, 3, 5, some 1000⟩ jone
        [⟨0, .connected [.data 50 11] (.ended 12)⟩])).disk = some m ∧ 1000 ≤ m) :=
  c6_resume_appends ⟨10, 3, 5, some 1000⟩ jone
    [⟨0, .connected [.data 50 11] (.ended 12)⟩] 1000 rfl

end Showrec

namespace Showrec

theorem step_stream_interrupt (cfg : Config) (jit : Nat → ℚ) (a : Attempt) (s : RecState)
    (evs : List ChunkEvent) (t : ℚ)
    (hLoop : a.tLoop < cfg.durationSeconds)
    (hSpec : a.spec = .connected evs (.interrupted t))
    (hNoDead : takeToDeadline cfg.durationSeconds evs = none) :
    stepAttempt cfg jit a s =
      .stop { success := false, bytes := s.totalBytes + sumData evs, duration := t,
              error := some "User interrupted" }
        (afterDeadline cfg s (sumData evs)) := by
  have hnot : ¬ cfg.durationSeconds ≤ a.tLoop := not_le.mpr hLoop
  cases s with
  | mk tb rc cd fl dk op sl ji am =>
    cases fl with
    | false =>
      simp only [stepAttempt, streamPhase, openFile, if_neg hnot, hSpec]
      rw [streamChunks_no_deadline cfg.durationSeconds evs _ 0 rfl hNoDead]
      simp [afterDeadline]
    | true =>
      simp only [stepAttempt, streamPhase, openFile, if_neg hnot, hSpec]
      rw [streamChunks_no_deadline cfg.durationSeconds evs _ (dk.getD 0) rfl hNoDead]
      simp [afterDeadline]

theorem step_stream_unexpected (cfg : Config) (jit : Nat → ℚ) (a : Attempt) (s : RecState)
    (evs : List ChunkEvent) (msg : String) (t : ℚ)
    (hLoop : a.tLoop < cfg.durationSeconds)
    (hSpec : a.spec = .connected evs (.unexpected msg t))
    (hNoDead : takeToDeadline cfg.durationSeconds evs = none) :
    stepAttempt cfg jit a s =
      .stop { success := false, bytes := s.totalBytes + sumData evs, duration := t,
              error := some msg }
        (afterDeadline cfg s (sumData evs)) := by
  have hnot : ¬ cfg.durationSeconds ≤ a.tLoop := not_le.mpr hLoop
  cases s with
  | mk tb rc cd fl dk op sl ji am =>
    cases fl with
    | false =>
      simp only [stepAttempt, streamPhase, openFile, if_neg hnot, hSpec]
      rw [streamChunks_no_deadline cfg.durationSeconds evs _ 0 rfl hNoDead]
      simp [afterDeadline]
    | true =>
      simp only [stepAttempt, streamPhase, openFile, if_neg hnot, hSpec]
      rw [streamChunks_no_deadline cfg.durationSeconds evs _ (dk.getD 0) rfl hNoDead]
      simp [afterDeadline]

/-- C9: a keyboard interrupt at any point of a capture — while connecting
(first conjunct) or mid-stream after some chunks were appended (second
conjunct) — makes `record_stream` return immediately with `success = false`
and `error = "User interrupted"`, reporting exactly the bytes accumulated
so far; the partial file stays on disk with all appended bytes (nothing is
deleted). -/
theorem c9_user_interrupt (cfg : Config) (jit : Nat → ℚ) :
    (∀ (a : Attempt) (rest : List Attempt) (s : RecState) (t : ℚ),
      a.tLoop < cfg.durationSeconds →
      a.spec = .connectInterrupt t →
      runAttempts cfg jit (a :: rest) s =
        .done { success := false, bytes := s.totalBytes, duration := t,
                error := some "User interrupted" }
          { s with attemptsMade := s.attemptsMade + 1 }) ∧
    (∀ (a : Attempt) (rest : List Attempt) (s : RecState) (evs : List ChunkEvent) (t : ℚ),
      a.tLoop < cfg.durationSeconds →
      a.spec = .connected evs (.interrupted t) →
      takeToDeadline cfg.durationSeconds evs = none →
      runAttempts cfg jit (a :: rest) s =
        .done { success := false, bytes := s.totalBytes + sumData evs, duration := t,
                error := some "User interrupted" }
          (afterDeadline cfg s (sumData evs)) ∧
      (afterDeadline cfg s (sumData evs)).disk =
        some ((if s.flagExists then s.disk.getD 0 else 0) + sumData evs)) := by
  constructor
  · intro a rest s t hLoop hSpec
    have hnot : ¬ cfg.durationSeconds ≤ a.tLoop := not_le.mpr hLoop
    simp [runAttempts, stepAttempt, if_neg hnot, hSpec]
  · intro a rest s evs t hLoop hSpec hNoDead
    refine ⟨?_, rfl⟩
    simp only [runAttempts, step_stream_interrupt cfg jit a s evs t hLoop hSpec hNoDead]

/-- C9 witness: an interrupt right after 50 bytes were appended yields a
failed outcome with the 50 bytes reported and still on disk. -/
theorem c9_witness :
    runAttempts ⟨10, 3, 5, none⟩ jone [⟨0, .connectInterrupt 3⟩] (initState ⟨10, 3, 5, none⟩) =
      .done { success := false, bytes := 0, duration := 3,
              error := some "User interrupted" }
        { initState ⟨10, 3, 5, none⟩ with attemptsMade := 1 } ∧
    runAttempts ⟨10, 3, 5, none⟩ jone [⟨0, .connected [.data 50 3] (.interrupted 4)⟩]
        (initState ⟨10, 3, 5, none⟩) =
      .done { success := false, bytes := 50, duration := 4,
              error := some "User interrupted" }
        (afterDeadline ⟨10, 3, 5, none⟩ (initState ⟨10, 3, 5, none⟩) 50) ∧
    (afterDeadline ⟨10, 3, 5, none⟩ (initState ⟨10, 3, 5, none⟩) 50).disk = some 50 :=
  ⟨(c9_user_interrupt ⟨10, 3, 5, none⟩ jone).1 ⟨0, .connectInterrupt 3⟩ []
      (initState ⟨10, 3, 5, none⟩) 3 (by decide) rfl,
   (c9_user_interrupt ⟨10, 3, 5, none⟩ jone).2 ⟨0, .connected [.data 50 3] (.interrupted 4)⟩
      [] (initState ⟨10, 3, 5, none⟩) [.data 50 3] 4 (by decide) rfl (by decide)⟩

/-- C10: an exception that is neither a `requests` exception, an `OSError`,
nor a keyboard interrupt makes `record_stream` return immediately with
`success = false` and `error = str(e)`, bypassing the retry loop entirely:
no retry increment beyond the reset value, no backoff sleep, and the
partial file is preserved. In the connecting case (first conjunct) the
state keeps its previous `retry_count` and sleep log unchanged; in the
mid-stream case (second conjunct) `retry_count` is 0 (the value the
successful connection reset it to) and the sleep log is unchanged. -/
theorem c10_unexpected_error (cfg : Config) (jit : Nat → ℚ) :
    (∀ (a : Attempt) (rest : List Attempt) (s : RecState) (msg : String) (t : ℚ),
      a.tLoop < cfg.durationSeconds →
      a.spec = .connectUnexpected msg t →
      runAttempts cfg jit (a :: rest) s =
        .done { success := false, bytes := s.totalBytes, duration := t, error := some msg }
          { s with attemptsMade := s.attemptsMade + 1 }) ∧
    (∀ (a : Attempt) (rest : List Attempt) (s : RecState) (evs : List ChunkEvent)
        (msg : String) (t : ℚ),
      a.tLoop < cfg.durationSeconds →
      a.spec = .connected evs (.unexpected msg t) →
      takeToDeadline cfg.durationSeconds evs = none →
      runAttempts cfg jit (a :: rest) s =
        .done { success := false, bytes := s.totalBytes + sumData evs, duration := t,
                error := some msg }
          (afterDeadline cfg s (sumData evs)) ∧
      (afterDeadline cfg s (sumData evs)).retryCount = 0 ∧
      (afterDeadline cfg s (sumData evs)).sleeps = s.sleeps ∧
      (afterDeadline cfg s (sumData evs)).disk =
        some ((if s.flagExists then s.disk.getD 0 else 0) + sumData evs)) := by
  constructor
  · intro a rest s msg t hLoop hSpec
    have hnot : ¬ cfg.durationSeconds ≤ a.tLoop := not_le.mpr hLoop
    simp [runAttempts, stepAttempt, if_neg hnot, hSpec]
  · intro a rest s evs msg t hLoop hSpec hNoDead
    refine ⟨?_, rfl, rfl, rfl⟩
    simp only [runAttempts, step_stream_unexpected cfg jit a s evs msg t hLoop hSpec hNoDead]

/-- C10 witness: a division-by-zero-style unexpected exception mid-stream
stops the capture with its message, zero retries, no sleeps, bytes kept. -/
theorem c10_witness :
    runAttempts ⟨10, 3, 5, none⟩ jone [⟨0, .connectUnexpected "weird" 2⟩]
        (initState ⟨10, 3, 5, none⟩) =
      .done { success := false, bytes := 0, duration := 2, error := some "weird" }
        { initState ⟨10, 3, 5, none⟩ with attemptsMade := 1 } ∧
    runAttempts ⟨10, 3, 5, none⟩ jone [⟨0, .connected [.data 50 3] (.unexpected "weird" 4)⟩]
        (initState ⟨10, 3, 5, none⟩) =
      .done { success := false, bytes := 50, duration := 4, error := some "weird" }
        (afterDeadline ⟨10, 3, 5, none⟩ (initState ⟨10, 3, 5, none⟩) 50) ∧
    (afterDeadline ⟨10, 3, 5, none⟩ (initState ⟨10, 3, 5, none⟩) 50).retryCount = 0 ∧
    (afterDeadline ⟨10, 3, 5, none⟩ (initState ⟨10, 3, 5, none⟩) 50).sleeps =
      (initState ⟨10, 3, 5, none⟩).sleeps ∧
    (afterDeadline ⟨10, 3, 5, none⟩ (initState ⟨10, 3, 5, none⟩) 50).disk = some 50 :=
  ⟨(c10_unexpected_error ⟨10, 3, 5, none⟩ jone).1 ⟨0, .connectUnexpected "weird" 2⟩ []
      (initState ⟨10, 3, 5, none⟩) "weird" 2 (by decide) rfl,
   (c10_unexpected_error ⟨10, 3, 5, none⟩ jone).2
      ⟨0, .connected [.data 50 3] (.unexpected "weird" 4)⟩ []
      (initState ⟨10, 3, 5, none⟩) [.data 50 3] "weird" 4 (by decide) rfl (by decide)⟩

end Showrec

namespace ShowrecHls

theorem fsGet_fsRemove_self (fs : FS) (p : String) : fsGet (fsRemove fs p) p = none := by
  induction fs with
  | nil => rfl
  | cons x r ih =>
    obtain ⟨px, fx⟩ := x
    simp only [fsRemove]
    by_cases h : px = p
    · rw [if_pos h]; exact ih
    · rw [if_neg h]
      simp only [fsGet]
      rw [if_neg h]
      exact ih

theorem fsGet_fsRemove_ne (fs : FS) (p q : String) (hpq : p ≠ q) :
    fsGet (fsRemove fs p) q = fsGet fs q := by
  induction fs with
  | nil => rfl
  | cons x r ih =>
    obtain ⟨px, fx⟩ := x
    simp only [fsRemove, fsGet]
    by_cases h : px = p
    · rw [if_pos h, ih]
      simp [h, hpq]
    · rw [if_neg h]
      simp only [fsGet]
      by_cases hq : px = q
      · simp [hq]
      · simp [hq, ih]

theorem fsGet_fsSet_self (fs : FS) (p : String) (f : FileD) :
    fsGet (fsSet fs p f) p = some f := by
  simp [fsSet, fsGet]

theorem fsGet_fsSet_ne (fs : FS) (p q : String) (f : FileD) (hpq : p ≠ q) :
    fsGet (fsSet fs p f) q = fsGet fs q := by
  simp only [fsSet, fsGet]
  rw [if_neg hpq]
  exact fsGet_fsRemove_ne fs p q hpq

theorem fsGet_cleanupTemp_self (fs : FS) (p : String) :
    fsGet (cleanupTemp fs p) p = none := by
  unfold cleanupTemp
  split
  · exact fsGet_fsRemove_self fs p
  · rename_i h
    cases hx : fsGet fs p with
    | none => rfl
    | some f => rw [hx] at h; simp at h

theorem fsGet_cleanupTemp_ne (fs : FS) (p q : String) (hpq : p ≠ q) :
    fsGet (cleanupTemp fs p) q = fsGet fs q := by
  unfold cleanupTemp
  split
  · exact fsGet_fsRemove_ne fs p q hpq
  · rfl

end ShowrecHls

namespace ShowrecHls

theorem fix_file_format_fail (output : String) (ffmpegAvail : Bool) (run : RemuxRun)
    (fs : FS)
    (hne : tmpName output ≠ output)
    (hstale : fsGet fs (tmpName output) = none)
    (hwf : WfRemux run)
    (hfail : (fix_file_format output ffmpegAvail run fs).1 = false) :
    fsGet (fix_file_format output ffmpegAvail run fs).2 output = fsGet fs output ∧
    fsGet (fix_file_format output ffmpegAvail run fs).2 (tmpName output) = none := by
  by_cases h1 : (fsGet fs output).isNone = true
  · simp only [fix_file_format, if_pos h1]
    exact ⟨by simp, hstale⟩
  · by_cases h2 : ffmpegAvail = false
    · simp only [fix_file_format, if_neg h1, if_pos h2]
      exact ⟨by simp, hstale⟩
    · cases run with
      | completed rc out =>
        by_cases h3 : rc = 0
        · subst h3
          cases out with
          | none => exact absurd (hwf rfl) (by simp)
          | some fd =>
            exfalso
            simp only [fix_file_format, if_neg h1, if_neg h2, if_pos rfl] at hfail
            rw [fsGet_fsRemove_ne _ output (tmpName output) (Ne.symm hne),
              fsGet_fsSet_self] at hfail
            simp at hfail
        · cases out with
          | some fd =>
            simp only [fix_file_format, if_neg h1, if_neg h2, if_neg h3]
            exact ⟨by rw [fsGet_cleanupTemp_ne _ _ _ hne, fsGet_fsSet_ne _ _ _ _ hne],
              fsGet_cleanupTemp_self _ _⟩
          | none =>
            simp only [fix_file_format, if_neg h1, if_neg h2, if_neg h3]
            exact ⟨by rw [fsGet_cleanupTemp_ne _ _ _ hne], fsGet_cleanupTemp_self _ _⟩
      | timedOut out =>
        cases out with
        | some fd =>
          simp only [fix_file_format, if_neg h1, if_neg h2]
          exact ⟨by rw [fsGet_cleanupTemp_ne _ _ _ hne, fsGet_fsSet_ne _ _ _ _ hne],
            fsGet_cleanupTemp_self _ _⟩
        | none =>
          simp only [fix_file_format, if_neg h1, if_neg h2]
          exact ⟨by rw [fsGet_cleanupTemp_ne _ _ _ hne], fsGet_cleanupTemp_self _ _⟩
      | raised msg =>
        simp only [fix_file_format, if_neg h1, if_neg h2]
        exact ⟨by rw [fsGet_cleanupTemp_ne _ _ _ hne], fsGet_cleanupTemp_self _ _⟩

theorem fix_file_format_success (output : String) (fs : FS) (fd0 fdNew : FileD)
    (hne : tmpName output ≠ output)
    (_hstale : fsGet fs (tmpName output) = none)
    (hout : fsGet fs output = some fd0) :
    (fix_file_format output true (.completed 0 (some fdNew)) fs).1 = true ∧
    fsGet (fix_file_format output true (.completed 0 (some fdNew)) fs).2 output =
      some fdNew ∧
    fsGet (fix_file_format output true (.completed 0 (some fdNew)) fs).2
      (tmpName output) = none := by
  have h1 : ¬ (fsGet fs output).isNone = true := by simp [hout]
  have hT : fsGet (fsRemove (fsSet fs (tmpName output) fdNew) output) (tmpName output) =
      some fdNew := by
    rw [fsGet_fsRemove_ne _ output (tmpName output) (Ne.symm hne), fsGet_fsSet_self]
  simp only [fix_file_format, if_neg h1, if_neg (by decide : ¬(true = false)),
    if_pos rfl, if_true]
  rw [hT]
  refine ⟨rfl, fsGet_fsSet_self _ _ _, ?_⟩
  rw [fsGet_fsSet_ne _ output (tmpName output) fdNew (Ne.symm hne)]
  exact fsGet_fsRemove_self _ _

theorem fix_file_format_output_after (output : String) (ffAvail : Bool) (run : RemuxRun)
    (fs : FS) (fd0 : FileD)
    (hne : tmpName output ≠ output)
    (_hstale : fsGet fs (tmpName output) = none)
    (hwf : WfRemux run)
    (hout : fsGet fs output = some fd0) :
    (fsGet (fix_file_format output ffAvail run fs).2 output).isSome = true := by
  have h1 : ¬ (fsGet fs output).isNone = true := by simp [hout]
  by_cases h2 : ffAvail = false
  · simp [fix_file_format, h2, hout]
  · cases run with
    | completed rc out =>
      by_cases h3 : rc = 0
      · subst h3
        cases out with
        | none => exact absurd (hwf rfl) (by simp)
        | some fd =>
          have hT : fsGet (fsRemove (fsSet fs (tmpName output) fd) output)
              (tmpName output) = some fd := by
            rw [fsGet_fsRemove_ne _ output (tmpName output) (Ne.symm hne),
              fsGet_fsSet_self]
          simp only [fix_file_format, if_neg h1, if_neg h2, if_pos rfl]
          rw [hT]
          simp [fsGet_fsSet_self]
      · cases out with
        | some fd =>
          simp only [fix_file_format, if_neg h1, if_neg h2, if_neg h3]
          rw [fsGet_cleanupTemp_ne _ _ _ hne, fsGet_fsSet_ne _ _ _ _ hne, hout]
          rfl
        | none =>
          simp only [fix_file_format, if_neg h1, if_neg h2, if_neg h3]
          rw [fsGet_cleanupTemp_ne _ _ _ hne, hout]
          rfl
    | timedOut out =>
      cases out with
      | some fd =>
        simp only [fix_file_format, if_neg h1, if_neg h2]
        rw [fsGet_cleanupTemp_ne _ _ _ hne, fsGet_fsSet_ne _ _ _ _ hne, hout]
        rfl
      | none =>
        simp only [fix_file_format, if_neg h1, if_neg h2]
        rw [fsGet_cleanupTemp_ne _ _ _ hne, hout]
        rfl
    | raised msg =>
      simp only [fix_file_format, if_neg h1, if_neg h2]
      rw [fsGet_cleanupTemp_ne _ _ _ hne, hout]
      rfl

end ShowrecHls

namespace ShowrecHls

theorem record_with_streamlink_true_iff (tool : ToolRun) :
    record_with_streamlink tool = true ↔ tool = .exits 0 := by
  cases tool with
  | exits rc => simp [record_with_streamlink]
  | interrupted => simp [record_with_streamlink]
  | raised m => simp [record_with_streamlink]

theorem record_with_ffmpeg_true_iff (tool : ToolRun) :
    record_with_ffmpeg tool = true ↔ tool = .exits 0 := by
  cases tool with
  | exits rc => simp [record_with_ffmpeg]
  | interrupted => simp [record_with_ffmpeg]
  | raised m => simp [record_with_ffmpeg]

/-- C7 (amended): provided the output filename contains ".m4a" — so that
the temporary path `output.replace('.m4a', '_fixed.m4a')` differs from the
original — and no stale temp file exists, and the remux tool writes its
output whenever it exits 0: (a) on remux success the original is atomically
replaced by the remuxed file and no temp file remains; (b) on any remux
failure (missing tool, non-zero exit, timeout, or exception) the original
file is left untouched and no temp file remains; (c) the overall HLS
capture outcome remains success regardless of the remux result. Without
that proviso the temp path equals the original and the failure cleanup
deletes the original (see the counterexample). -/
theorem c7_remux_atomic :
    (∀ (output : String) (fs : FS) (fd0 fdNew : FileD),
      tmpName output ≠ output →
      fsGet fs (tmpName output) = none →
      fsGet fs output = some fd0 →
      (fix_file_format output true (.completed 0 (some fdNew)) fs).1 = true ∧
      fsGet (fix_file_format output true (.completed 0 (some fdNew)) fs).2 output =
        some fdNew ∧
      fsGet (fix_file_format output true (.completed 0 (some fdNew)) fs).2
        (tmpName output) = none) ∧
    (∀ (output : String) (ffmpegAvail : Bool) (run : RemuxRun) (fs : FS),
      tmpName output ≠ output →
      fsGet fs (tmpName output) = none →
      WfRemux run →
      (fix_file_format output ffmpegAvail run fs).1 = false →
      fsGet (fix_file_format output ffmpegAvail run fs).2 output = fsGet fs output ∧
      fsGet (fix_file_format output ffmpegAvail run fs).2 (tmpName output) = none) ∧
    (∀ (output : String) (ffAvail : Bool) (fsAfter : FS) (remux : RemuxRun) (d : Nat)
        (fs0 : FS) (fd : FileD),
      tmpName output ≠ output →
      fsGet fsAfter (tmpName output) = none →
      WfRemux remux →
      fsGet fsAfter output = some fd →
      (record_stream output "streamlink" true ffAvail (.exits 0) fsAfter remux d fs0).map
        (fun p => p.1.success) = some true) := by
  refine ⟨?_, ?_, ?_⟩
  · intro output fs fd0 fdNew hne hstale hout
    exact fix_file_format_success output fs fd0 fdNew hne hstale hout
  · intro output ffmpegAvail run fs hne hstale hwf hfail
    exact fix_file_format_fail output ffmpegAvail run fs hne hstale hwf hfail
  · intro output ffAvail fsAfter remux d fs0 fd hne hstale hwf hout
    have hkeep := fix_file_format_output_after output ffAvail remux fsAfter fd
      hne hstale hwf hout
    obtain ⟨fd', hfd'⟩ := Option.isSome_iff_exists.mp hkeep
    simp [record_stream, record_with_streamlink, hout, hfd']

/-- C7 witness: on a ".m4a" output, a successful remux atomically replaces
the file, a failed remux leaves the original and removes the temp, and the
capture outcome stays success even when the remux fails. -/
theorem c7_witness :
    ((fix_file_format "rec.m4a" true (.completed 0 (some ⟨9, 90⟩))
        [("rec.m4a", ⟨7, 100⟩)]).1 = true ∧
      fsGet (fix_file_format "rec.m4a" true (.completed 0 (some ⟨9, 90⟩))
        [("rec.m4a", ⟨7, 100⟩)]).2 "rec.m4a" = some ⟨9, 90⟩ ∧
      fsGet (fix_file_format "rec.m4a" true (.completed 0 (some ⟨9, 90⟩))
        [("rec.m4a", ⟨7, 100⟩)]).2 (tmpName "rec.m4a") = none) ∧
    (fsGet (fix_file_format "rec.m4a" true (.completed 1 (some ⟨9, 90⟩))
        [("rec.m4a", ⟨7, 100⟩)]).2 "rec.m4a" =
      fsGet [("rec.m4a", (⟨7, 100⟩ : FileD))] "rec.m4a" ∧
      fsGet (fix_file_format "rec.m4a" true (.completed 1 (some ⟨9, 90⟩))
        [("rec.m4a", ⟨7, 100⟩)]).2 (tmpName "rec.m4a") = none) ∧
    (record_stream "out.m4a" "streamlink" true true (.exits 0)
        [("out.m4a", ⟨7, 100⟩)] (.completed 1 none) 600 []).map
      (fun p => p.1.success) = some true :=
  ⟨c7_remux_atomic.1 "rec.m4a" [("rec.m4a", ⟨7, 100⟩)] ⟨7, 100⟩ ⟨9, 90⟩
      (by decide) (by decide) (by decide),
   c7_remux_atomic.2.1 "rec.m4a" true (.completed 1 (some ⟨9, 90⟩))
      [("rec.m4a", ⟨7, 100⟩)] (by decide) (by decide) (by intro h; simp at h) (by decide),
   c7_remux_atomic.2.2 "out.m4a" true [("out.m4a", ⟨7, 100⟩)] (.completed 1 none) 600 []
      ⟨7, 100⟩ (by decide) (by decide) (by intro h; simp at h) (by decide)⟩

/-- C7 counterexample to the claim as stated: with an output filename that
does not contain ".m4a", the temporary path equals the original path, and a
failing remux (non-zero exit) makes the cleanup
`if os.path.exists(temp_file): os.remove(temp_file)` delete the ORIGINAL
file: the original is not left untouched. -/
theorem c7_counterexample :
    tmpName "rec.mp3" = "rec.mp3" ∧
    fix_file_format "rec.mp3" true (.completed 1 none) [("rec.mp3", ⟨7, 100⟩)] =
      (false, []) ∧
    fsGet [("rec.mp3", (⟨7, 100⟩ : FileD))] "rec.mp3" = some ⟨7, 100⟩ ∧
    fsGet ([] : FS) "rec.mp3" = none := by decide

/-- C8 (amended): for the HLS capture path with the chosen tool available,
the outcome is success if and only if the external tool's process exit code
is 0; the existence and size of the destination file affect only the
reported size, not the success flag. -/
theorem c8_success_iff_exit_zero :
    (∀ (output : String) (ffAvail : Bool) (tool : ToolRun) (fsAfter : FS)
        (remux : RemuxRun) (d : Nat) (fs0 : FS) (o : HlsOutcome) (fs' : FS),
      record_stream output "streamlink" true ffAvail tool fsAfter remux d fs0 =
        some (o, fs') →
      (o.success = true ↔ tool = .exits 0)) ∧
    (∀ (output : String) (slAvail : Bool) (tool : ToolRun) (fsAfter : FS)
        (remux : RemuxRun) (d : Nat) (fs0 : FS) (o : HlsOutcome) (fs' : FS),
      record_stream output "ffmpeg" slAvail true tool fsAfter remux d fs0 =
        some (o, fs') →
      (o.success = true ↔ tool = .exits 0)) := by
  constructor
  · intro output ffAvail tool fsAfter remux d fs0 o fs' h
    have hos : o.success = record_with_streamlink tool := by
      unfold record_stream at h
      dsimp only at h
      rw [if_neg (by decide : ¬("streamlink" = "auto"))] at h
      dsimp only at h
      rw [if_pos (rfl : "streamlink" = "streamlink")] at h
      rw [if_neg (by decide : ¬(true = false))] at h
      split at h
      · split at h
        · exact Option.noConfusion h
        · cases h; rfl
      · cases h; rfl
    rw [hos]
    exact record_with_streamlink_true_iff tool
  · intro output slAvail tool fsAfter remux d fs0 o fs' h
    have hos : o.success = record_with_ffmpeg tool := by
      unfold record_stream at h
      dsimp only at h
      rw [if_neg (by decide : ¬("ffmpeg" = "auto"))] at h
      dsimp only at h
      rw [if_neg (by decide : ¬("ffmpeg" = "streamlink"))] at h
      rw [if_pos (rfl : "ffmpeg" = "ffmpeg")] at h
      rw [if_neg (by decide : ¬(true = false))] at h
      split at h
      · split at h
        · exact Option.noConfusion h
        · cases h; rfl
      · cases h; rfl
    rw [hos]
    exact record_with_ffmpeg_true_iff tool

/-- C8 witness: a streamlink run exiting 0 yields a success outcome (here
even though the destination file was never created). -/
theorem c8_witness :
    (({ success := true, file := some "out.m4a", sizeBytes := 0, duration := 600,
        error := none } : HlsOutcome).success = true ↔
      ToolRun.exits 0 = ToolRun.exits 0) :=
  c8_success_iff_exit_zero.1 "out.m4a" true (.exits 0) [] (.completed 1 none) 600 []
    { success := true, file := some "out.m4a", sizeBytes := 0, duration := 600,
      error := none } [] (by decide)

/-- C8 counterexample to the claim as stated: with exit code 0 but no
destination file produced, the code still returns success = true (with size
0); so success is NOT equivalent to "exit code 0 and destination exists
with non-zero size". -/
theorem c8_counterexample :
    record_stream "out.m4a" "streamlink" true true (.exits 0) [] (.completed 1 none)
        600 [] =
      some ({ success := true, file := some "out.m4a", sizeBytes := 0, duration := 600,
              error := none }, []) ∧
    fsGet ([] : FS) "out.m4a" = none := by decide

end ShowrecHls
